import Mathlib

/-!
Verification development for the dice-formula engine of the
donjons-et-chatons system (src/module/documents/roll.js and the
reroll ("relance") sheets).

Modelling choices: JS numbers are modelled as exact rationals (`Q`, a
reduced numerator/denominator pair with computable arithmetic);
randomness is an explicit generator function `g : ℕ → ℕ` with a running
counter; fallible code returns Except; the unbounded recursion of the
parser/evaluator (parse - validate - evaluate cycles through nested
groups) is modelled with an explicit fuel parameter, a run that exhausts
fuel failing like any other error.  Host (Foundry) classes that are not
part of the repository - the RollTerm hierarchy, foundry.utils
helpers, Number.isNumeric - are modelled from the specification; each
such definition says so in its doc comment.
-/

namespace DC

/-! ## Computable rational numbers -/

/-- Fueled Euclid gcd (computable by kernel reduction). -/
def qgcd : ℕ → ℕ → ℕ → ℕ
  | 0, _, b => b
  | fuel + 1, a, b => if a = 0 then b else qgcd fuel (b % a) a

/-- An exact rational: a JS number idealised as a reduced fraction with
a positive denominator. -/
structure Q where
  num : ℤ
  den : ℤ
deriving DecidableEq, Repr

instance : OfNat Q n := ⟨⟨n, 1⟩⟩

/-- Build a normalized rational from a numerator and denominator. -/
def Q.mk' (n d : ℤ) : Q :=
  if d = 0 then ⟨0, 1⟩
  else
    let s : ℤ := if d < 0 then -1 else 1
    let n' := s * n
    let d' := s * d
    let g : ℤ := (qgcd (n'.natAbs + d'.natAbs + 1) n'.natAbs d'.natAbs : ℕ)
    if g = 0 then ⟨0, 1⟩ else ⟨n' / g, d' / g⟩

def Q.ofInt (n : ℤ) : Q := ⟨n, 1⟩

def Q.ofN (n : ℕ) : Q := ⟨n, 1⟩

def Q.add (a b : Q) : Q := Q.mk' (a.num * b.den + b.num * a.den) (a.den * b.den)

def Q.sub (a b : Q) : Q := Q.mk' (a.num * b.den - b.num * a.den) (a.den * b.den)

def Q.mul (a b : Q) : Q := Q.mk' (a.num * b.num) (a.den * b.den)

def Q.div (a b : Q) : Q := Q.mk' (a.num * b.den) (a.den * b.num)

def Q.neg (a : Q) : Q := ⟨-a.num, a.den⟩

/-- Boolean a ≤ b (denominators are positive). -/
def Q.ble (a b : Q) : Bool := decide (a.num * b.den ≤ b.num * a.den)

/-- Boolean a < b. -/
def Q.blt (a b : Q) : Bool := decide (a.num * b.den < b.num * a.den)

/-- Is this rational negative? -/
def Q.isNeg (a : Q) : Bool := decide (a.num < 0)

/-! ## Term model -/

/-- Arithmetic operator symbols (spec section 3, Operator variant). -/
inductive Opr where
  | add
  | sub
  | mul
  | div
deriving DecidableEq, Repr

/-- The written symbol of an operator. -/
def Opr.symbol : Opr → String
  | .add => "+"
  | .sub => "-"
  | .mul => "*"
  | .div => "/"

/-- Recognise an operator character (OperatorTerm.OPERATORS). -/
def Opr.ofChar : Char → Option Opr
  | '+' => some .add
  | '-' => some .sub
  | '*' => some .mul
  | '/' => some .div
  | _ => none

/-- Modelled from the spec: comparator of a count-successes modifier
(spec section 6 grammar, Compare). -/
inductive Cmp where
  | le
  | lt
  | ge
  | gt
  | eq
deriving DecidableEq, Repr

/-- Comparator test on rational face values. -/
def Cmp.test : Cmp → Q → Q → Bool
  | .le, a, b => a.ble b
  | .lt, a, b => a.blt b
  | .ge, a, b => b.ble a
  | .gt, a, b => b.blt a
  | .eq, a, b => a == b

/-- Modelled from the spec: a parsed modifier code.  Only the
count-successes comparison modifier is exercised by this system
(spec section 4.6); other modifier codes are carried as opaque text and
act as no-ops. -/
inductive Modifier where
  | cs (c : Cmp) (target : Q)
  | unknown (s : String)
deriving DecidableEq, Repr

/-- Modelled from the spec: one die's outcome
(spec section 3, DieResult).  `result` is the face value, `count` is the
counted value assigned by a success-counting modifier. -/
structure DieResult where
  result : Q
  active : Bool := true
  success : Option Bool := none
  count : Option Q := none
deriving DecidableEq, Repr

/-- Modelled from the spec: per-term options carried through parsing
(flavor annotation text, spec glossary "Flavor text"). -/
structure TermOpts where
  flavor : Option String := none
deriving DecidableEq, Repr

/-- foundry.utils.mergeObject on term options: fields of `b` override
fields of `a`. -/
def TermOpts.merge (a b : TermOpts) : TermOpts :=
  { flavor := match b.flavor with
      | some f => some f
      | none => a.flavor }

/-- Modelled from the spec: the tagged-variant term model
(spec section 3).  `paren`, `math` and `pool` keep the raw inner text just
as the host ParentheticalTerm / MathTerm / PoolTerm classes do, and store
their evaluation outcome (total and produced dice) once evaluated. -/
inductive Term where
  | num (number : Q) (opts : TermOpts) (evaluated : Bool)
  | op (operator : Opr) (opts : TermOpts) (evaluated : Bool)
  | die (number : ℕ) (faces : ℕ) (modifiers : List String)
        (results : List DieResult) (opts : TermOpts) (evaluated : Bool)
  | paren (term : String) (inner : Option (Q × List Term)) (opts : TermOpts)
  | math (fn : String) (argStrs : List String)
         (inner : Option (Q × List Term)) (opts : TermOpts)
  | pool (termStrs : List String) (modifiers : List String)
         (results : List DieResult) (inner : Option (List (Q × List Term)))
         (opts : TermOpts)
  | str (term : String) (opts : TermOpts)

/-- Is this term one of the intermediate (grouping) terms that
Roll._evaluate step 1 replaces (RollTerm.isIntermediate)? -/
def Term.isIntermediate : Term → Bool
  | .paren .. => true
  | .math .. => true
  | .pool .. => true
  | _ => false

/-- Is this term a StringTerm (an unresolved string fragment)? -/
def Term.isStr : Term → Bool
  | .str .. => true
  | _ => false

/-- Is this term an OperatorTerm? -/
def Term.isOp : Term → Bool
  | .op .. => true
  | _ => false

/-- Has this term been evaluated (RollTerm._evaluated)? -/
def Term.isEvaluated : Term → Bool
  | .num _ _ e => e
  | .op _ _ e => e
  | .die _ _ _ _ _ e => e
  | .paren _ inner _ => inner.isSome
  | .math _ _ inner _ => inner.isSome
  | .pool _ _ _ inner _ => inner.isSome
  | .str .. => false

/-- The options of a term. -/
def Term.opts : Term → TermOpts
  | .num _ o _ => o
  | .op _ o _ => o
  | .die _ _ _ _ o _ => o
  | .paren _ _ o => o
  | .math _ _ _ o => o
  | .pool _ _ _ _ o => o
  | .str _ o => o

/-- Replace the options of a term. -/
def Term.withOpts : Term → TermOpts → Term
  | .num n _ e, o => .num n o e
  | .op p _ e, o => .op p o e
  | .die n f m r _ e, o => .die n f m r o e
  | .paren t i _, o => .paren t i o
  | .math f a i _, o => .math f a i o
  | .pool t m r i _, o => .pool t m r i o
  | .str s _, o => .str s o

/-- The counted value of one die result: the modifier-assigned count when
present, the face value otherwise (DiceTerm.total summand). -/
def DieResult.counted (r : DieResult) : Q :=
  match r.count with
  | some c => c
  | none => r.result

/-- Sum of the counted values of the active results
(DiceTerm.total / PoolTerm.total reduction, modelled from the spec:
host DiceTerm code). -/
def resultsTotal (rs : List DieResult) : Q :=
  rs.foldl (fun t r => if r.active then t.add r.counted else t) 0

/-- Modelled from the spec: RollTerm.total.  Numeric terms always expose
their number; dice and grouping terms expose a total only once
evaluated. -/
def Term.total : Term → Option Q
  | .num n _ _ => some n
  | .op .. => none
  | .die _ _ _ rs _ e => if e then some (resultsTotal rs) else none
  | .paren _ inner _ => inner.map Prod.fst
  | .math _ _ inner _ => inner.map Prod.fst
  | .pool _ _ rs inner _ => if inner.isSome then some (resultsTotal rs) else none
  | .str .. => none

/-- The dice produced by a term (RollTerm.dice, modelled from the spec:
a die is itself a die; evaluated grouping terms expose the dice of their
inner rolls). -/
def Term.dice : Term → List Term
  | .die n f m r o e => [.die n f m r o e]
  | .paren _ (some (_, ds)) _ => ds
  | .math _ _ (some (_, ds)) _ => ds
  | .pool _ _ _ (some rolls) _ => rolls.foldl (fun acc r => acc ++ r.2) []
  | _ => []

/-- The results list of a die term. -/
def Term.dieResults : Term → List DieResult
  | .die _ _ _ rs _ _ => rs
  | _ => []

end DC

namespace DC

/-! ## Kernel-computable string helpers

These mirror the JS string operations the engine relies on
(String.prototype.trim, split, startsWith, endsWith), defined by
structural recursion over the character list. -/

/-- JS String.prototype.trim: strip whitespace from both ends. -/
def strTrim (s : String) : String :=
  String.mk (((s.data.dropWhile Char.isWhitespace).reverse.dropWhile
    Char.isWhitespace).reverse)

/-- Split a character list at every occurrence of the separator. -/
def splitCharAux (sep : Char) : List Char → List String
  | [] => [""]
  | c :: rest =>
      let r := splitCharAux sep rest
      if c = sep then "" :: r
      else
        match r with
        | h :: t => String.mk (c :: h.data) :: t
        | [] => [String.mk [c]]

/-- JS String.prototype.split with a one-character separator. -/
def strSplitOn (sep : Char) (s : String) : List String :=
  splitCharAux sep s.data

/-- JS String.prototype.startsWith. -/
def strStartsWith (s pat : String) : Bool :=
  pat.data.isPrefixOf s.data

/-- JS String.prototype.endsWith. -/
def strEndsWith (s pat : String) : Bool :=
  pat.data.reverse.isPrefixOf s.data.reverse

end DC

namespace DC

/-! ## Number formatting, substitution data, modifiers -/

/-- Decimal digits of the fractional part `rem/den`, up to `fuel` digits
(JS number printing idealised on rationals). -/
def fracDigits : ℕ → ℕ → ℕ → List Char
  | 0, _, _ => []
  | _, 0, _ => []
  | fuel + 1, rem, den =>
      Char.ofNat (48 + rem * 10 / den) :: fracDigits fuel (rem * 10 % den) den

/-- Modelled from the spec: JS stringification of a number, idealised on
exact rationals (the engine's own values are integers and finite
decimals). -/
def numToString (q : Q) : String :=
  let sign := if q.isNeg then "-" else ""
  let n := q.num.natAbs
  let d := q.den.natAbs
  let rem := n % d
  sign ++ toString (n / d) ++
    (if rem = 0 then "" else "." ++ String.mk (fracDigits 17 rem d))

/-- Modelled from the spec: a value in the `@`-substitution context -
either a primitive (kept in its stringified form) or a nested object
(spec section 4.1, dotted nesting). -/
inductive DataVal where
  | leaf (s : String)
  | obj (fields : List (String × DataVal))

/-- Field lookup in an object node. -/
def getField : List (String × DataVal) → String → Option DataVal
  | [], _ => none
  | (k, v) :: rest, key => if k = key then some v else getField rest key

/-- Walk a dotted path, one key at a time. -/
def getPropertyPath : List String → DataVal → Option DataVal
  | [], v => some v
  | _ :: _, .leaf _ => none
  | k :: ks, .obj fs =>
      match getField fs k with
      | some v => getPropertyPath ks v
      | none => none

/-- The substitution context: a root object. -/
abbrev Data := List (String × DataVal)

/-- Modelled from the spec: foundry.utils.getProperty - dotted-path lookup
in the context (spec section 4.1). -/
def getProperty (d : Data) (path : String) : Option DataVal :=
  getPropertyPath (strSplitOn '.' path) (.obj d)

/-- Modelled from the spec: JS String(value) on a looked-up context
value. -/
def stringifyVal : DataVal → String
  | .leaf s => s
  | .obj _ => "[object Object]"

/-- A character of the `@`-reference identifier pattern
[a-z.0-9_-] with the case-insensitive flag (roll.js line 633). -/
def isRefChar (c : Char) : Bool :=
  c.isAlpha || c.isDigit || c = '.' || c = '_' || c = '-'

/-- The replacement text for one matched `@identifier` occurrence
(the replacer callback of roll.js lines 634-641): a found value is
stringified and trimmed; a missing value becomes the configured
`missing` default, or the literal match text when no default is
configured. -/
def substRef (data : Data) (missing : Option String) (ident : List Char) :
    List Char :=
  match getProperty data (String.mk ident) with
  | some v => (strTrim (stringifyVal v)).data
  | none =>
      match missing with
      | some m => m.data
      | none => '@' :: ident

/-- Fueled character-level scan implementing the global regex replace of
Roll.replaceFormulaData (roll.js lines 632-642); fuel bounds the number
of characters consumed, so any fuel at least the input length is
exact. -/
def replaceDataCharsF (data : Data) (missing : Option String) :
    ℕ → List Char → List Char
  | 0, _ => []
  | _, [] => []
  | fuel + 1, c :: rest =>
      if c = '@' then
        let ident := rest.takeWhile isRefChar
        if ident.isEmpty then
          '@' :: replaceDataCharsF data missing fuel rest
        else
          substRef data missing ident ++
            replaceDataCharsF data missing fuel (rest.drop ident.length)
      else c :: replaceDataCharsF data missing fuel rest

/-- Roll.replaceFormulaData (roll.js lines 632-642): substitute
`@identifier` references against the context. -/
def DCRoll.replaceFormulaData (formula : String) (data : Data)
    (missing : Option String) : String :=
  String.mk (replaceDataCharsF data missing formula.data.length formula.data)

/-- Parse a comparator prefix of a modifier code. -/
def parseCmpChars : List Char → Option (Cmp × List Char)
  | '<' :: '=' :: rest => some (.le, rest)
  | '>' :: '=' :: rest => some (.ge, rest)
  | '<' :: rest => some (.lt, rest)
  | '>' :: rest => some (.gt, rest)
  | '=' :: rest => some (.eq, rest)
  | _ => none

/-- Decimal digits to a natural number. -/
def digitsToNat (ds : List Char) : ℕ :=
  ds.foldl (fun n c => n * 10 + (c.toNat - 48)) 0

/-- Modelled from the spec: parse one modifier code
(spec section 6 grammar, Compare := ('cs'|'cf') cmp Integer).  Only the
count-successes modifier is interpreted; every other code is carried as
opaque text and ignored during evaluation. -/
def parseModifier (s : String) : Modifier :=
  match s.data with
  | 'c' :: 's' :: rest =>
      let cr := match parseCmpChars rest with
        | some p => p
        | none => (Cmp.eq, rest)
      let ds := cr.2.takeWhile Char.isDigit
      if ds.isEmpty then .unknown s
      else if cr.2.drop ds.length = [] then
        .cs cr.1 (Q.ofN (digitsToNat ds))
      else .unknown s
  | _ => .unknown s

/-- A character allowed inside a modifier suffix. -/
def isModChar (c : Char) : Bool :=
  c.isAlpha || c.isDigit || c = '<' || c = '>' || c = '='

/-- Modelled from the spec: split a modifier suffix into individual
modifier codes (DiceTerm.MODIFIER_REGEXP): letters, then an optional
comparator, then optional digits; unmatched characters are skipped.
Fueled by the input length. -/
def splitModCharsF : ℕ → List Char → List String
  | 0, _ => []
  | _, [] => []
  | fuel + 1, c :: rest =>
      if c.isAlpha then
        let letters := rest.takeWhile Char.isAlpha
        let r1 := rest.drop letters.length
        let cmp := r1.takeWhile (fun x => x = '<' || x = '>' || x = '=')
        let r2 := r1.drop cmp.length
        let ds := r2.takeWhile Char.isDigit
        let r3 := r2.drop ds.length
        String.mk (c :: (letters ++ cmp ++ ds)) :: splitModCharsF fuel r3
      else splitModCharsF fuel rest

/-- Split a dice/pool modifier suffix string into modifier codes. -/
def parseModsList (s : String) : List String :=
  splitModCharsF s.data.length s.data

end DC

namespace DC

/-! ## Flavor-text handling and part tokenizers -/

/-- Find the first closing bracket of a flavor span: the text before it
and the remainder after it (lazy match of RollTerm.FLAVOR_REGEXP,
modelled from the spec: bracket-delimited annotation text). -/
def findClose : List Char → Option (List Char × List Char)
  | [] => none
  | c :: rest =>
      if c = ']' then some ([], rest)
      else (findClose rest).map (fun p => (c :: p.1, p.2))

/-- The placeholder key used for the n-th withheld flavor span
(Roll._extractFlavors, roll.js lines 874-883). -/
def flavorKey (n : ℕ) : String :=
  "$$F" ++ toString n ++ "$$"

/-- Fueled character scan implementing Roll._extractFlavors
(roll.js lines 874-883): replace each bracketed flavor span by a
placeholder key and collect the mapping. -/
def extractFlavorsAuxF : ℕ → ℕ → List Char → List Char × List (String × String)
  | 0, _, l => (l, [])
  | _, _, [] => ([], [])
  | fuel + 1, n, c :: rest =>
      if c = '[' then
        match findClose rest with
        | some (inner, rest') =>
            let key := flavorKey n
            let p := extractFlavorsAuxF fuel (n + 1) rest'
            (key.data ++ p.1, (key, String.mk ('[' :: (inner ++ [']']))) :: p.2)
        | none => ('[' :: rest, [])
      else
        let p := extractFlavorsAuxF fuel n rest
        (c :: p.1, p.2)

/-- Roll._extractFlavors (roll.js lines 874-883). -/
def DCRoll.extractFlavors (formula : String) :
    String × List (String × String) :=
  let p := extractFlavorsAuxF formula.data.length 0 formula.data
  (String.mk p.1, p.2)

/-- Replace the first occurrence of `pat` by `rep` in `s`
(JS String.replace with a plain-string pattern); `none` when `pat` does
not occur. -/
def replaceFirstChars (pat rep : List Char) : List Char → Option (List Char)
  | [] => none
  | c :: rest =>
      if pat ≠ [] ∧ pat.isPrefixOf (c :: rest) then
        some (rep ++ (c :: rest).drop pat.length)
      else (replaceFirstChars pat rep rest).map (c :: ·)

/-- Roll._restoreFlavor (roll.js lines 894-902): walk the flavor
entries, substituting each key found in the term and deleting the used
entries. -/
def restoreFlavor : String → List (String × String) → String × List (String × String)
  | t, [] => (t, [])
  | t, (k, f) :: rest =>
      match replaceFirstChars k.data f.data t.data with
      | some t' => restoreFlavor (String.mk t') rest
      | none =>
          let p := restoreFlavor t rest
          (p.1, (k, f) :: p.2)

/-- Sequentially restore flavor text into a list of member strings,
threading the shared flavor table (the group.terms.map of
Roll._splitGroup, roll.js line 789). -/
def restoreList : List String → List (String × String) → List String × List (String × String)
  | [], fs => ([], fs)
  | t :: ts, fs =>
      let p := restoreFlavor t fs
      let q := restoreList ts p.2
      (p.1 :: q.1, q.2)

/-- Match a flavor placeholder key at the head of the input:
the key text and the remainder. -/
def matchFlavorKey (l : List Char) : Option (List Char × List Char) :=
  match l with
  | c1 :: c2 :: c3 :: rest =>
      if c1 = '$' ∧ c2 = '$' ∧ c3 = 'F' then
        let ds := rest.takeWhile Char.isDigit
        if ds.isEmpty then none
        else
          let r1 := rest.drop ds.length
          if r1.take 2 = ['$', '$'] then
            some ('$' :: '$' :: 'F' :: (ds ++ ['$', '$']), r1.drop 2)
          else none
      else none
  | _ => none

/-- Find the first occurrence of a flavor placeholder key anywhere in the
input: the text before it and the key (the t.match of the closeGroup
helper, roll.js lines 779-783). -/
def findFlavorOcc : List Char → Option (List Char × List Char)
  | [] => none
  | c :: rest =>
      match matchFlavorKey (c :: rest) with
      | some (key, _) => some ([], key)
      | none => (findFlavorOcc rest).map (fun p => (c :: p.1, p.2))

/-- Split the formula around every arithmetic operator character: the
regex replace-and-split of Roll._splitOperators (roll.js line 856),
with OperatorTerm.REGEXP matching each single operator symbol. -/
def opPartsAux : List Char → List Char → List String
  | cur, [] => [String.mk cur.reverse]
  | cur, c :: rest =>
      if (Opr.ofChar c).isSome then
        String.mk cur.reverse :: String.mk [c] :: opPartsAux [] rest
      else opPartsAux (c :: cur) rest

def opParts (s : String) : List String := opPartsAux [] s.data

/-- A character of a function-name identifier preceding a parenthesis
(ParentheticalTerm.OPEN_REGEXP, modelled from the spec: the text
preceding the open parenthesis naming a math function). -/
def groupIdentChar (c : Char) : Bool := c.isAlpha || c.isDigit || c = '_'

/-- Fueled split of the formula into parts around parenthetical open and
close tokens: the regex replace-and-split of Roll._splitGroup (roll.js
line 770) instantiated with ParentheticalTerm.OPEN_REGEXP and
CLOSE_REGEXP (an optional function name glued to the open parenthesis;
an optional flavor placeholder glued to the close parenthesis). -/
def parenPartsAuxF : ℕ → List Char → List Char → List String
  | 0, cur, l => [String.mk (cur.reverse ++ l)]
  | _, cur, [] => [String.mk cur.reverse]
  | fuel + 1, cur, c :: rest =>
      if c = '(' then
        String.mk cur.reverse :: "(" :: parenPartsAuxF fuel [] rest
      else if c = ')' then
        match matchFlavorKey rest with
        | some (key, rest') =>
            String.mk cur.reverse :: String.mk (')' :: key) ::
              parenPartsAuxF fuel [] rest'
        | none =>
            String.mk cur.reverse :: ")" :: parenPartsAuxF fuel [] rest
      else if c.isAlpha then
        let run := rest.takeWhile groupIdentChar
        match rest.drop run.length with
        | '(' :: rest2 =>
            String.mk cur.reverse :: String.mk (c :: (run ++ ['('])) ::
              parenPartsAuxF fuel [] rest2
        | r => parenPartsAuxF fuel ((c :: run).reverse ++ cur) r
      else parenPartsAuxF fuel (c :: cur) rest

def parenParts (s : String) : List String :=
  parenPartsAuxF s.data.length [] s.data

/-- Fueled split of the formula into parts around dice-pool open and
close tokens (PoolTerm.OPEN_REGEXP and CLOSE_REGEXP: the close brace
carries any trailing modifier codes and an optional flavor
placeholder). -/
def poolPartsAuxF : ℕ → List Char → List Char → List String
  | 0, cur, l => [String.mk (cur.reverse ++ l)]
  | _, cur, [] => [String.mk cur.reverse]
  | fuel + 1, cur, c :: rest =>
      if c = '{' then
        String.mk cur.reverse :: "\x7b" :: poolPartsAuxF fuel [] rest
      else if c = '}' then
        let run := rest.takeWhile isModChar
        match matchFlavorKey (rest.drop run.length) with
        | some (key, rest') =>
            String.mk cur.reverse :: String.mk ('}' :: (run ++ key)) ::
              poolPartsAuxF fuel [] rest'
        | none =>
            String.mk cur.reverse :: String.mk ('}' :: run) ::
              poolPartsAuxF fuel [] (rest.drop run.length)
      else poolPartsAuxF fuel (c :: cur) rest

def poolParts (s : String) : List String :=
  poolPartsAuxF s.data.length [] s.data

/-- A partially parsed entry: a raw string fragment or an already
classified term (the mixed string/RollTerm arrays of Roll.parse). -/
inductive PTerm where
  | s (text : String)
  | t (term : Term)

/-- isIntermediate on a mixed entry: a plain string has no such property
(JS undefined, falsy). -/
def PTerm.isIntermediate : PTerm → Bool
  | .s _ => false
  | .t tm => tm.isIntermediate

/-- The accumulator for one bracketed group inside Roll._splitGroup. -/
structure GroupAcc where
  openStr : String
  terms : List String
  close : String
  flavor : Option String

/-- An Except value carrying an error. -/
def isFail : Except String α → Bool
  | .error _ => true
  | .ok _ => false

/-- The part-scanning loop of Roll._splitGroup (roll.js lines 793-831):
tracks the nesting depth, accumulates group members, and calls the
close-handler when a top-level group closes.  The close-handler threads
the random counter (it may validate sub-formulas, which rolls dice). -/
def splitGroupLoop (openSym closeSym : Char)
    (onClose : GroupAcc → ℕ → List PTerm × ℕ) :
    List String → List PTerm → ℕ → GroupAcc → List (String × String) → ℕ →
      Except String (List PTerm × List (String × String)) × ℕ
  | [], acc, nOpen, _, flavors, ctr =>
      if nOpen ≠ 0 then
        (.error ("Unbalanced group missing opening " ++ String.mk [openSym] ++
          " or closing " ++ String.mk [closeSym]), ctr)
      else (.ok (acc, flavors), ctr)
  | t0 :: parts, acc, nOpen, group, flavors, ctr =>
      let t := strTrim t0
      if t.isEmpty then
        splitGroupLoop openSym closeSym onClose parts acc nOpen group flavors ctr
      else
        let isOpen := strEndsWith t (String.mk [openSym])
        let n1 := if isOpen then nOpen + 1 else nOpen
        if isOpen && n1 == 1 then
          splitGroupLoop openSym closeSym onClose parts acc 1
            ⟨t, [], "", none⟩ flavors ctr
        else if 0 < n1 then
          if strStartsWith t (String.mk [closeSym]) then
            if n1 - 1 = 0 then
              let cf : String × Option String × List (String × String) :=
                match findFlavorOcc t.data with
                | some (before, key) =>
                    let rf := restoreFlavor (String.mk key) flavors
                    (String.mk before, some rf.1, rf.2)
                | none => (t, none, flavors)
              let rl := restoreList group.terms cf.2.2
              let oc := onClose ⟨group.openStr, rl.1, cf.1, cf.2.1⟩ ctr
              splitGroupLoop openSym closeSym onClose parts (acc ++ oc.1) 0
                ⟨"", [], "", none⟩ rl.2 oc.2
            else
              splitGroupLoop openSym closeSym onClose parts acc (n1 - 1)
                { group with terms := group.terms ++ [t] } flavors ctr
          else
            splitGroupLoop openSym closeSym onClose parts acc n1
              { group with terms := group.terms ++ [t] } flavors ctr
        else
          splitGroupLoop openSym closeSym onClose parts (acc ++ [.s t]) n1
            group flavors ctr

/-- The nesting-depth dynamics of the splitGroupLoop scan, in
isolation. -/
def scanOpenCount (openSym closeSym : Char) : List String → ℕ → ℕ
  | [], n => n
  | t0 :: ps, n =>
      let t := strTrim t0
      if t.isEmpty then scanOpenCount openSym closeSym ps n
      else
        let isOpen := strEndsWith t (String.mk [openSym])
        let n1 := if isOpen then n + 1 else n
        if isOpen && n1 == 1 then scanOpenCount openSym closeSym ps 1
        else if 0 < n1 then
          if strStartsWith t (String.mk [closeSym]) then
            if n1 - 1 = 0 then scanOpenCount openSym closeSym ps 0
            else scanOpenCount openSym closeSym ps (n1 - 1)
          else scanOpenCount openSym closeSym ps n1
        else scanOpenCount openSym closeSym ps n1

/-- The final reduce of Roll._splitGroup (roll.js lines 834-842):
restore withheld flavor text and re-combine adjacent strings. -/
def recombineAux :
    List PTerm → List PTerm → List (String × String) →
      List PTerm × List (String × String)
  | acc, [], fs => (acc, fs)
  | acc, .t tm :: rest, fs => recombineAux (acc ++ [.t tm]) rest fs
  | acc, .s t :: rest, fs =>
      let rf := restoreFlavor t fs
      match acc.getLast? with
      | some (.s prev) =>
          recombineAux (acc.dropLast ++ [.s (prev ++ rf.1)]) rest rf.2
      | _ => recombineAux (acc ++ [.s rf.1]) rest rf.2

end DC

namespace DC

/-- A token of the final arithmetic expression built by
Roll._evaluateTotal (roll.js line 398): a numeric total or an operator
symbol. -/
inductive Tok where
  | num (q : Q)
  | op (o : Opr)
deriving DecidableEq, Repr

/-- Parse one operand, consuming any leading unary signs (JS unary
plus/minus in operand position). -/
def parseAtom : List Tok → Option (Q × List Tok)
  | .op .add :: rest => parseAtom rest
  | .op .sub :: rest => (parseAtom rest).map (fun p => (p.1.neg, p.2))
  | .num q :: rest => some (q, rest)
  | _ => none

/-- Fueled left-to-right chain of `*` and `/` binding tighter than `+`
and `-` (the multiplicative level of JS expression evaluation). -/
def mulChainF : ℕ → Q → List Tok → Option (Q × List Tok)
  | 0, _, _ => none
  | fuel + 1, v, .op .mul :: rest =>
      match parseAtom rest with
      | some (w, r) => mulChainF fuel (v.mul w) r
      | none => none
  | fuel + 1, v, .op .div :: rest =>
      match parseAtom rest with
      | some (w, r) => if w.num = 0 then none else mulChainF fuel (v.div w) r
      | none => none
  | _ + 1, v, l => some (v, l)

/-- Parse a full multiplicative product. -/
def parseProd (fuel : ℕ) (l : List Tok) : Option (Q × List Tok) :=
  match parseAtom l with
  | some (v, r) => mulChainF fuel v r
  | none => none

/-- Fueled left-to-right chain of `+` and `-` (the additive level of JS
expression evaluation). -/
def addChainF : ℕ → Q → List Tok → Option Q
  | 0, _, _ => none
  | _ + 1, v, [] => some v
  | fuel + 1, v, .op .add :: rest =>
      match parseProd fuel rest with
      | some (w, r) => addChainF fuel (v.add w) r
      | none => none
  | fuel + 1, v, .op .sub :: rest =>
      match parseProd fuel rest with
      | some (w, r) => addChainF fuel (v.sub w) r
      | none => none
  | _ + 1, _, _ => none

/-- Modelled from the spec: Roll.safeEval (roll.js lines 484-497).  The
host evaluates the joined expression string with a sandboxed Function;
this model evaluates the token sequence under the JS grammar (unary
signs, `*` `/` before `+` `-`, left-to-right inside a level).  `none`
stands for any evaluation that does not produce a finite number
(syntax error, or division by zero whose infinite/NaN result the
finiteness check of spec section 4.5 step 4 rejects). -/
def DCRoll.safeEval (toks : List Tok) : Option Q :=
  match parseProd (toks.length + 1) toks with
  | some (v, r) => addChainF (toks.length + 1) v r
  | none => none

/-- The multiplicative first pass of the claim-side evaluator: collapse a
leading run of `*` and `/` left-to-right. -/
def mulPass (v : Q) : List (Opr × Q) → Option (Q × List (Opr × Q))
  | (.mul, w) :: rest => mulPass (v.mul w) rest
  | (.div, w) :: rest => if w.num = 0 then none else mulPass (v.div w) rest
  | l => some (v, l)

/-- The fueled additive second pass of the claim-side evaluator: fold `+`
and `-` left-to-right, each operand being a collapsed product. -/
def addPassF : ℕ → Q → List (Opr × Q) → Option Q
  | 0, _, _ => none
  | _ + 1, v, [] => some v
  | fuel + 1, v, (.add, w) :: rest =>
      match mulPass w rest with
      | some (w', r) => addPassF fuel (v.add w') r
      | none => none
  | fuel + 1, v, (.sub, w) :: rest =>
      match mulPass w rest with
      | some (w', r) => addPassF fuel (v.sub w') r
      | none => none
  | _ + 1, _, _ => none

/-- The claim-side evaluator: standard operator precedence, `*` and `/`
before `+` and `-`, left-to-right within the same level (spec section
8). -/
def twoPassEval (v0 : Q) (rest : List (Opr × Q)) : Option Q :=
  match mulPass v0 rest with
  | some (v, r) => addPassF (r.length + 1) v r
  | none => none

/-- Flatten a structured operand/operator alternation into the token
sequence the engine evaluates. -/
def flatTail : List (Opr × Q) → List Tok
  | [] => []
  | (o, w) :: r => .op o :: .num w :: flatTail r

def flatToks (v0 : Q) (rest : List (Opr × Q)) : List Tok :=
  .num v0 :: flatTail rest

end DC

namespace DC

/-- Floor of a rational (⌊x⌋). -/
def Q.floor (x : Q) : ℤ := Int.fdiv x.num x.den

/-- Ceiling of a rational (⌈x⌉). -/
def Q.ceil (x : Q) : ℤ := -(Int.fdiv (-x.num) x.den)

/-- Round half up (the JS Math.round convention). -/
def Q.round (x : Q) : ℤ := Int.fdiv (2 * x.num + x.den) (2 * x.den)

/-- Absolute value. -/
def Q.qabs (x : Q) : Q := ⟨|x.num|, x.den⟩

/-- The larger of two rationals. -/
def Q.qmax (a b : Q) : Q := if Q.ble a b then b else a

/-- The smaller of two rationals. -/
def Q.qmin (a b : Q) : Q := if Q.ble a b then a else b

/-- Rational value of a decimal numeral with integer and fractional
digit runs. -/
def decToQ (ip fp : List Char) : Q :=
  Q.mk' (digitsToNat ip * 10 ^ fp.length + digitsToNat fp)
    ((10 : ℤ) ^ fp.length)

/-- Match an optional trailing `[flavor]` annotation that must reach the
end of the input (the flavor tail of the term regexes, modelled from the
spec: bracket-delimited annotation). -/
def matchBracketFlavor : List Char → Option (Option String)
  | [] => some none
  | '[' :: rest =>
      match findClose rest with
      | some (inner, []) => some (some (String.mk inner))
      | _ => none
  | _ => none

/-- Modelled from the spec: NumericTerm.matchTerm - a decimal-number
pattern with an optional flavor tail (spec section 4.4). -/
def NumericTerm.matchTerm (s : String) : Option (Q × Option String) :=
  let l := s.data
  let ip := l.takeWhile Char.isDigit
  if ip.isEmpty then none
  else
    match l.drop ip.length with
    | '.' :: r2 =>
        let fp := r2.takeWhile Char.isDigit
        if fp.isEmpty then none
        else (matchBracketFlavor (r2.drop fp.length)).map
          (fun fl => (decToQ ip fp, fl))
    | r1 => (matchBracketFlavor r1).map (fun fl => (decToQ ip [], fl))

/-- Modelled from the spec: DiceTerm.matchTerm - the
`<count> D <faces> <modifiers>` pattern (spec section 4.4); the count is
optional, and when it is absent the match is rejected unless
`imputeNumber` is set (the terminal classification pass). -/
def DiceTerm.matchTerm (s : String) (imputeNumber : Bool) :
    Option (Option ℕ × ℕ × String × Option String) :=
  let l := s.data
  let cnt := l.takeWhile Char.isDigit
  match l.drop cnt.length with
  | d :: r2 =>
      if d = 'd' ∨ d = 'D' then
        let fc := r2.takeWhile Char.isDigit
        if fc.isEmpty then none
        else
          let r3 := r2.drop fc.length
          let mods := r3.takeWhile isModChar
          match matchBracketFlavor (r3.drop mods.length) with
          | some fl =>
              if cnt.isEmpty ∧ ¬ imputeNumber then none
              else some (if cnt.isEmpty then none else some (digitsToNat cnt),
                digitsToNat fc, String.mk mods, fl)
          | none => none
      else none
  | [] => none

/-- Roll._classifyStringTerm (roll.js lines 916-934): an already
classified term passes through; otherwise try the numeric pattern, then
the dice pattern (deferring when an intermediate neighbour is present in
an intermediate pass), else keep an opaque StringTerm. -/
def DCRoll.classifyStringTerm (pt : PTerm) (intermediate : Bool)
    (prior next : Option PTerm) : Term :=
  match pt with
  | .t tm => tm
  | .s s =>
      match NumericTerm.matchTerm s with
      | some (n, fl) => .num n ⟨fl⟩ false
      | none =>
          match DiceTerm.matchTerm s (¬ intermediate) with
          | some (cnt, faces, mods, fl) =>
              if intermediate ∧
                  ((prior.map PTerm.isIntermediate).getD false ∨
                    (next.map PTerm.isIntermediate).getD false) then
                .str s ⟨none⟩
              else .die (cnt.getD 1) faces (parseModsList mods) [] ⟨fl⟩ false
          | none => .str s ⟨none⟩

/-- The rendered flavor suffix of a term. -/
def flavorSuffix (o : TermOpts) : String :=
  match o.flavor with
  | some f => "[" ++ f ++ "]"
  | none => ""

/-- Modelled from the spec: RollTerm.formula - the textual rendering of
one term (used by Roll.getFormula). -/
def Term.formula : Term → String
  | .num n o _ => numToString n ++ flavorSuffix o
  | .op p _ _ => " " ++ p.symbol ++ " "
  | .die n f m _ o _ =>
      toString n ++ "d" ++ toString f ++ String.join m ++ flavorSuffix o
  | .paren t _ o => "(" ++ t ++ ")" ++ flavorSuffix o
  | .math fn args _ o =>
      fn ++ "(" ++ String.intercalate "," args ++ ")" ++ flavorSuffix o
  | .pool ts ms _ _ o =>
      "\x7b" ++ String.intercalate "," ts ++ "\x7d" ++ String.join ms ++
        flavorSuffix o
  | .str s o => s ++ flavorSuffix o

/-- Roll.getFormula (roll.js lines 473-475). -/
def DCRoll.getFormula (terms : List Term) : String :=
  String.join (terms.map Term.formula)

/-- The JS string coercion of term.total used when simplifyTerms glues a
term onto a string fragment: a StringTerm contributes its text, an
unevaluated term the text "undefined". -/
def Term.totalString : Term → String
  | .str s _ => s
  | t =>
      match t.total with
      | some q => numToString q
      | none => "undefined"

/-- Roll.simplifyTerms (roll.js lines 507-547): glue string fragments to
adjacent non-operator terms, reclassify the remaining strings in a
terminal (non-intermediate) pass, and drop leading (non-minus) or
trailing operator terms. -/
def DCRoll.simplifyTerms (terms : List Term) : List Term :=
  let step1 : List Term := terms.foldl (fun acc term =>
    match acc.getLast? with
    | some (.str s o) =>
        if ¬ term.isOp then
          acc.dropLast ++ [.str (s ++ term.totalString) (o.merge term.opts)]
        else acc ++ [term]
    | some prior =>
        if ¬ prior.isOp then
          match term with
          | .str s o =>
              acc.dropLast ++ [.str (prior.totalString ++ s) (o.merge prior.opts)]
          | _ => acc ++ [term]
        else acc ++ [term]
    | none => acc ++ [term]) []
  let step2 : List Term := step1.map (fun term =>
    match term with
    | .str s o =>
        let t := DCRoll.classifyStringTerm (.s (Term.formula (.str s o)))
          false none none
        t.withOpts (o.merge t.opts)
    | t => t)
  let step3 :=
    match step2.head? with
    | some (.op p _ _) => if p ≠ .sub then step2.tail else step2
    | _ => step2
  match step3.getLast? with
  | some (.op _ _ _) => step3.dropLast
  | _ => step3

/-- The token of one final term in the total expression: operators
contribute their symbol, other terms their numeric total; a term with no
total (an unevaluated die, or an unresolved string fragment) has no
token and makes the evaluation fail. -/
def termTok : Term → Option Tok
  | .op o _ _ => some (.op o)
  | t => (t.total).map Tok.num

/-- Roll._evaluateTotal (roll.js lines 397-404) composed with the
modelled safeEval: evaluate the terms' joined total expression and fail
unless the outcome is a finite number (the Number.isNumeric guard is
host code, modelled from spec section 4.5 step 4). -/
def DCRoll.evaluateTotal (terms : List Term) : Except String Q :=
  match terms.mapM termTok with
  | none => .error "Roll.safeEval produced a non-numeric result"
  | some toks =>
      match DCRoll.safeEval toks with
      | some v => .ok v
      | none => .error "Roll.safeEval produced a non-numeric result"

/-- Modelled from the spec: one uniformly distributed die face in
[1, faces] from the random source, or the forced extreme under
minimize/maximize (spec section 4.5 step 3 and section 6 input flags). -/
def rollDie (g : ℕ → ℕ) (ctr : ℕ) (faces : ℕ)
    (minimize maximize : Bool) : Q :=
  if minimize then 1
  else if maximize then Q.ofN faces
  else Q.ofN (g ctr % faces + 1)

/-- Roll `number` dice in ascending index order, advancing the random
counter. -/
def rollResults (g : ℕ → ℕ) (ctr : ℕ) (number faces : ℕ)
    (minimize maximize : Bool) : List DieResult × ℕ :=
  ((List.range number).map (fun i =>
    { result := rollDie g (ctr + i) faces minimize maximize }), ctr + number)

/-- Modelled from the spec: apply one modifier to the results.  A
count-successes modifier marks each active die's success flag and counted
value (spec section 4.6); unknown codes are no-ops. -/
def applyModifier (m : Modifier) (rs : List DieResult) : List DieResult :=
  match m with
  | .cs c target => rs.map (fun r =>
      if r.active then
        let s := c.test r.result target
        { r with success := some s, count := some (if s then 1 else 0) }
      else r)
  | .unknown _ => rs

/-- Apply the modifier codes in written order (spec section 3). -/
def applyModifiers (mods : List String) (rs : List DieResult) :
    List DieResult :=
  mods.foldl (fun rs m => applyModifier (parseModifier m) rs) rs

/-- Math function table of the sandboxed evaluator, modelled from the
spec (section 4.5 step 4: whitelisted math operations).  Functions whose
exact value is not rational (sqrt, exp, log, pow) are not modelled and
evaluate to none. -/
def applyMathFn : String → List Q → Option Q
  | "abs", [x] => some x.qabs
  | "ceil", [x] => some (Q.ofInt x.ceil)
  | "floor", [x] => some (Q.ofInt x.floor)
  | "round", [x] => some (Q.ofInt x.round)
  | "trunc", [x] => some (Q.ofInt (if x.isNeg then x.ceil else x.floor))
  | "sign", [x] =>
      some (if x.num < 0 then Q.ofInt (-1) else if x.num = 0 then 0 else 1)
  | "max", l => l.foldl (fun acc x => acc.map (fun a => a.qmax x)) l.head?
  | "min", l => l.foldl (fun acc x => acc.map (fun a => a.qmin x)) l.head?
  | _, _ => none

/-- The names recognised as math functions when closing a parenthetical
group (`fn in Math`, roll.js line 692; modelled from the spec: a known
math function). -/
def isMathFn (s : String) : Bool :=
  ["abs", "ceil", "floor", "round", "trunc", "sign", "max", "min",
    "sqrt", "pow", "exp", "log"].contains s

/-- An operator part string (OperatorTerm.OPERATORS membership,
roll.js line 860). -/
def oprOfString (s : String) : Option Opr :=
  match s.data with
  | [c] => Opr.ofChar c
  | _ => none

/-- Roll._splitOperators (roll.js lines 854-864): withhold flavor text,
split on the operator regex, and rebuild operator terms and restored
string fragments. -/
def DCRoll.splitOperators (formula : String) : List PTerm :=
  let ef := DCRoll.extractFlavors formula
  ((opParts ef.1).foldl (fun (st : List PTerm × List (String × String)) t0 =>
    let t := strTrim t0
    if t.isEmpty then st
    else
      match oprOfString t with
      | some p => (st.1 ++ [.t (.op p ⟨none⟩ false)], st.2)
      | none =>
          let rf := restoreFlavor t st.2
          (st.1 ++ [.s rf.1], rf.2)) ([], ef.2)).1

end DC

namespace DC

/-- Options of a Roll (those the system reads/writes: flavor text and
the DCOld discarded-die markup set by editRoll). -/
structure RollOpts where
  flavor : Option String := none
  DCOld : Option String := none
deriving DecidableEq, Repr

/-- The DCRoll document (roll.js lines 100-146): substitution data,
options, parsed terms, the accumulated inner dice `_dice`, the cleaned
formula `_formula`, the `_evaluated` flag and the cached `_total`. -/
structure Roll where
  data : Data
  options : RollOpts
  terms : List Term
  _dice : List Term
  _formula : String
  _evaluated : Bool
  _total : Option Q

/-- The Roll.dice getter (roll.js lines 191-197): the accumulated inner
dice followed by the die terms of the term list, pools contributing
their inner dice. -/
def Roll.dice (r : Roll) : List Term :=
  r._dice ++ r.terms.foldl (fun dice t =>
    match t with
    | .die .. => dice ++ [t]
    | .pool .. => dice ++ t.dice
    | _ => dice) []

/-! ### The recursive engine

Validation constructs and evaluates a throwaway roll; group splitting
validates sub-formulas; parsing splits groups; the constructor parses;
term evaluation constructs and evaluates sub-rolls; roll evaluation
evaluates terms.  This mutual recursion is modelled by one
fuel-structural dispatcher `engineF` over a request/response sum; each
entry point below is a thin non-recursive wrapper.  The bodies of the
engine cases are the `*Go` functions, parameterized by the recursive
entry points they call. -/

/-- The signature of the DCRoll constructor. -/
def MkFn : Type :=
  String → Data → RollOpts → ℕ → Except String Roll × ℕ

/-- The signature of Roll.evaluate. -/
def EvalFn : Type :=
  Bool → Bool → Roll → ℕ → (Except String Unit × Roll) × ℕ

/-- Roll.validate (roll.js lines 651-667): substitute a 1 for every data
reference, then construct and evaluate a throwaway Roll, reporting
whether that succeeded. -/
def validateGo (mk : MkFn) (ev : EvalFn) (formula : String) (ctr : ℕ) :
    Bool × ℕ :=
  let replaced := DCRoll.replaceFormulaData formula [] (some "1")
  match mk replaced [] {} ctr with
  | (.error _, c) => (false, c)
  | (.ok r, c) =>
      match ev false false r c with
      | ((.error _, _), c') => (false, c')
      | ((.ok _, _), c') => (true, c')

/-- Roll._splitMathArgs (roll.js lines 713-727): split on every comma,
then re-join a piece onto the prior argument while the prior argument
does not yet validate as a complete sub-formula. -/
def splitMathArgsGo (validate : String → ℕ → Bool × ℕ)
    (expression : String) (ctr : ℕ) : List String × ℕ :=
  (strSplitOn ',' expression).foldl
    (fun (st : List String × ℕ) t0 =>
      let t := strTrim t0
      if t.isEmpty then st
      else
        match st.1.getLast? with
        | none => (st.1 ++ [t], st.2)
        | some p =>
            let v := validate p st.2
            if v.1 then (st.1 ++ [t], v.2)
            else (st.1.dropLast ++ [p ++ "," ++ t], v.2)) ([], ctr)

/-- The onClose handler of Roll._splitPools (roll.js lines 743-749):
comma-split the members into pool terms and take the modifier codes from
the close token's tail. -/
def poolOnCloseGo (mathArgs : String → ℕ → List String × ℕ)
    (group : GroupAcc) (c : ℕ) : List PTerm × ℕ :=
  let ma := mathArgs (String.join group.terms) c
  let mods := parseModsList (group.close.drop 1)
  let opts : TermOpts :=
    ⟨group.flavor.map (fun f => (f.drop 1).dropRight 1)⟩
  ([.t (.pool ma.1 mods [] none opts)], ma.2)

/-- The onClose handler of Roll._splitParentheses (roll.js lines
683-701): a known math-function name makes a MathTerm with comma-split
arguments, otherwise a ParentheticalTerm (the name, if any, re-emitted
as a string fragment). -/
def parenOnCloseGo (mathArgs : String → ℕ → List String × ℕ)
    (group : GroupAcc) (c : ℕ) : List PTerm × ℕ :=
  let fn := group.openStr.dropRight 1
  let expression := String.join group.terms
  let opts : TermOpts :=
    ⟨group.flavor.map (fun f => (f.drop 1).dropRight 1)⟩
  if isMathFn fn then
    let ma := mathArgs expression c
    ([.t (.math fn ma.1 none opts)], ma.2)
  else
    ((if fn.isEmpty then [] else [.s fn]) ++
      [.t (.paren expression none opts)], c)

/-- Roll._splitPools (roll.js lines 737-750): the group splitter over
braces. -/
def splitPoolsGo (onClose : GroupAcc → ℕ → List PTerm × ℕ)
    (formula : String) (ctr : ℕ) : Except String (List PTerm) × ℕ :=
  let ef := DCRoll.extractFlavors formula
  match splitGroupLoop '{' '}' onClose
      (poolParts ef.1) [] 0 ⟨"", [], "", none⟩ ef.2 ctr with
  | (.error e, c) => (.error e, c)
  | (.ok (acc, flavors'), c) => (.ok (recombineAux [] acc flavors').1, c)

/-- Roll._splitParentheses (roll.js lines 677-703): the group splitter
over parentheses. -/
def splitParenthesesGo (onClose : GroupAcc → ℕ → List PTerm × ℕ)
    (formula : String) (ctr : ℕ) : Except String (List PTerm) × ℕ :=
  let ef := DCRoll.extractFlavors formula
  match splitGroupLoop '(' ')' onClose
      (parenParts ef.1) [] 0 ⟨"", [], "", none⟩ ef.2 ctr with
  | (.error e, c) => (.error e, c)
  | (.ok (acc, flavors'), c) => (.ok (recombineAux [] acc flavors').1, c)

/-- Roll.parse (roll.js lines 590-616): data substitution, parenthesis
split, pool split, operator split, then the intermediate classification
pass with neighbour context. -/
def parseGo (parens pools : String → ℕ → Except String (List PTerm) × ℕ)
    (formula : String) (data : Data) (ctr : ℕ) :
    Except String (List Term) × ℕ :=
  if formula.isEmpty then (.ok [], ctr)
  else
    let replaced := DCRoll.replaceFormulaData formula data (some "0")
    match parens replaced ctr with
    | (.error e, c) => (.error e, c)
    | (.ok pterms, c) =>
        let s3 := pterms.foldl
          (fun (st : Except String (List PTerm) × ℕ) pt =>
            match st with
            | (.error e, c) => (.error e, c)
            | (.ok acc, c) =>
                match pt with
                | .s s =>
                    match pools s c with
                    | (.ok ts, c') => (.ok (acc ++ ts), c')
                    | (.error e, c') => (.error e, c')
                | .t tm => (.ok (acc ++ [.t tm]), c)) ((.ok []), c)
        match s3 with
        | (.error e, c') => (.error e, c')
        | (.ok pt3, c') =>
            let pt4 := pt3.foldl (fun acc pt =>
              match pt with
              | .s s => acc ++ DCRoll.splitOperators s
              | .t tm => acc ++ [.t tm]) []
            let terms := pt4.mapIdx (fun i pt =>
              DCRoll.classifyStringTerm pt true
                (if i = 0 then none else pt4.get? (i - 1))
                (pt4.get? (i + 1)))
            (.ok terms, c')

/-- The DCRoll constructor (roll.js lines 101-146): store the data and
options, parse the formula into terms, start with no inner dice, cache
the re-rendered formula, unevaluated with no total. -/
def RollMkGo (parse : String → Data → ℕ → Except String (List Term) × ℕ)
    (formula : String) (data : Data) (options : RollOpts) (ctr : ℕ) :
    Except String Roll × ℕ :=
  match parse formula data ctr with
  | (.error e, c) => (.error e, c)
  | (.ok terms, c) =>
      (.ok { data := data, options := options, terms := terms,
             _dice := [], _formula := DCRoll.getFormula terms,
             _evaluated := false, _total := none }, c)

/-- RollTerm evaluation (modelled from the spec, sections 4.5 and 7):
numeric and operator terms just mark themselves evaluated; a string
fragment cannot be evaluated; a die rolls its results and applies its
modifiers; grouping terms evaluate their inner sub-rolls recursively,
collecting the produced dice. -/
def evalTermGo (g : ℕ → ℕ) (mk : MkFn) (ev : EvalFn)
    (minimize maximize : Bool) (t : Term) (ctr : ℕ) :
    Except String Term × ℕ :=
  match t with
  | .num n o _ => (.ok (.num n o true), ctr)
  | .op p o _ => (.ok (.op p o true), ctr)
  | .str s _ => (.error ("The string " ++ s ++ " cannot be evaluated"), ctr)
  | .die n f mods _ o e =>
      if e then (.error "The term has already been evaluated", ctr)
      else
        let rr := rollResults g ctr n f minimize maximize
        (.ok (.die n f mods (applyModifiers mods rr.1) o true), rr.2)
  | .paren s inner o =>
      match inner with
      | some _ => (.error "The term has already been evaluated", ctr)
      | none =>
          match mk s [] {} ctr with
          | (.error e, c) => (.error e, c)
          | (.ok r, c) =>
              match ev minimize maximize r c with
              | ((.error e, _), c') => (.error e, c')
              | ((.ok _, r'), c') =>
                  match r'._total with
                  | some v => (.ok (.paren s (some (v, r'.dice)) o), c')
                  | none => (.error "non-numeric parenthetical", c')
  | .math fn args inner o =>
      match inner with
      | some _ => (.error "The term has already been evaluated", ctr)
      | none =>
          let st := args.foldl
            (fun (st : Except String (List Q × List Term) × ℕ) a =>
              match st with
              | (.error e, c) => (.error e, c)
              | (.ok (vs, ds), c) =>
                  match mk a [] {} c with
                  | (.error e, c') => (.error e, c')
                  | (.ok r, c') =>
                      match ev minimize maximize r c' with
                      | ((.error e, _), c'') => (.error e, c'')
                      | ((.ok _, r'), c'') =>
                          match r'._total with
                          | some v =>
                              (.ok (vs ++ [v], ds ++ r'.dice), c'')
                          | none =>
                              (.error "non-numeric math argument", c''))
            ((.ok ([], [])), ctr)
          match st with
          | (.error e, c) => (.error e, c)
          | (.ok (vs, ds), c) =>
              match applyMathFn fn vs with
              | some v => (.ok (.math fn args (some (v, ds)) o), c)
              | none => (.error ("Math." ++ fn ++ " is not usable"), c)
  | .pool ts mods _ inner o =>
      match inner with
      | some _ => (.error "The term has already been evaluated", ctr)
      | none =>
          let st := ts.foldl
            (fun (st : Except String (List (Q × List Term)) × ℕ) a =>
              match st with
              | (.error e, c) => (.error e, c)
              | (.ok pairs, c) =>
                  match mk a [] {} c with
                  | (.error e, c') => (.error e, c')
                  | (.ok r, c') =>
                      match ev minimize maximize r c' with
                      | ((.error e, _), c'') => (.error e, c'')
                      | ((.ok _, r'), c'') =>
                          match r'._total with
                          | some v =>
                              (.ok (pairs ++ [(v, r'.dice)]), c'')
                          | none =>
                              (.error "non-numeric pool member", c''))
            ((.ok []), ctr)
          match st with
          | (.error e, c) => (.error e, c)
          | (.ok pairs, c) =>
              let results := pairs.map
                (fun p => ({ result := p.1 } : DieResult))
              (.ok (.pool ts mods (applyModifiers mods results)
                (some pairs) o), c)

/-- Step 1 of Roll._evaluate (roll.js lines 323-336): walk the terms in
order; each intermediate grouping term is evaluated, its dice collected,
and the term replaced by a fresh numeric term; an error stops the walk,
keeping the dice collected so far. -/
def step1Go (evt : Term → ℕ → Except String Term × ℕ) :
    List Term → ℕ → Except String (List Term) × List Term × ℕ
  | [], ctr => (.ok [], [], ctr)
  | term :: rest, ctr =>
      if term.isIntermediate then
        match evt term ctr with
        | (.error e, c') => (.error e, [], c')
        | (.ok t', c') =>
            match step1Go evt rest c' with
            | (.error e, dice, c'') => (.error e, t'.dice ++ dice, c'')
            | (.ok ts, dice, c'') =>
                (.ok (Term.num (t'.total.getD 0) t'.opts false :: ts),
                  t'.dice ++ dice, c'')
      else
        match step1Go evt rest ctr with
        | (res, dice, c'') => (res.map (term :: ·), dice, c'')

/-- Step 3 of Roll._evaluate (roll.js lines 342-344): evaluate every
not-yet-evaluated term in place; an error stops the walk, leaving the
failing term and its successors unchanged. -/
def step3Go (evt : Term → ℕ → Except String Term × ℕ) :
    List Term → ℕ → Except String Unit × List Term × ℕ
  | [], ctr => (.ok (), [], ctr)
  | term :: rest, ctr =>
      if ¬ term.isEvaluated then
        match evt term ctr with
        | (.error e, c') => (.error e, term :: rest, c')
        | (.ok t', c') =>
            match step3Go evt rest c' with
            | (res, ts, c'') => (res, t' :: ts, c'')
      else
        match step3Go evt rest ctr with
        | (res, ts, c'') => (res, term :: ts, c'')

/-- Roll.evaluate / Roll._evaluate (roll.js lines 293-349; the sync
variant of lines 362-388 is step-identical): refuse when already
evaluated, then (1) replace intermediate grouping terms by numeric terms
while collecting their dice, (2) simplify, (3) evaluate the remaining
terms, (4) compute the final total.  Returns the outcome, the roll state
after the call, and the advanced random counter. -/
def evaluateGo (evt : Term → ℕ → Except String Term × ℕ)
    (r : Roll) (ctr : ℕ) : (Except String Unit × Roll) × ℕ :=
  if r._evaluated then
    ((.error "The DCRoll has already been evaluated and is now immutable",
      r), ctr)
  else
    let r1 := { r with _evaluated := true }
    match step1Go evt r1.terms ctr with
    | (.error e, dice, c) =>
        ((.error e, { r1 with _dice := r1._dice ++ dice }), c)
    | (.ok ts, dice, c) =>
        let r2 := { r1 with terms := DCRoll.simplifyTerms ts,
                            _dice := r1._dice ++ dice }
        match step3Go evt r2.terms c with
        | (.error e, ts', c') => ((.error e, { r2 with terms := ts' }), c')
        | (.ok _, ts', c') =>
            let r3 := { r2 with terms := ts' }
            match DCRoll.evaluateTotal r3.terms with
            | .error e => ((.error e, r3), c')
            | .ok tot => ((.ok (), { r3 with _total := some tot }), c')

/-- A request to the recursive engine. -/
inductive EngReq where
  | validate (formula : String)
  | parens (formula : String)
  | pools (formula : String)
  | parse (formula : String) (data : Data)
  | mk (formula : String) (data : Data) (options : RollOpts)
  | evalTerm (minimize maximize : Bool) (t : Term)
  | evaluate (minimize maximize : Bool) (r : Roll)

/-- A response of the recursive engine. -/
inductive EngRes where
  | bool (b : Bool)
  | pterms (res : Except String (List PTerm))
  | terms (res : Except String (List Term))
  | roll (res : Except String Roll)
  | term (res : Except String Term)
  | evaluate (res : Except String Unit) (r : Roll)

/-- The recursive engine: one fuel-structural dispatcher tying the
mutually recursive entry points together.  Fuel exhaustion is a failure
(a failed validation; elsewhere the JS stack-overflow error). -/
def engineF (g : ℕ → ℕ) : ℕ → EngReq → ℕ → EngRes × ℕ
  | 0, .validate _, ctr => (.bool false, ctr)
  | 0, .parens _, ctr =>
      (.pterms (.error "Maximum call stack size exceeded"), ctr)
  | 0, .pools _, ctr =>
      (.pterms (.error "Maximum call stack size exceeded"), ctr)
  | 0, .parse _ _, ctr =>
      (.terms (.error "Maximum call stack size exceeded"), ctr)
  | 0, .mk _ _ _, ctr =>
      (.roll (.error "Maximum call stack size exceeded"), ctr)
  | 0, .evalTerm _ _ _, ctr =>
      (.term (.error "Maximum call stack size exceeded"), ctr)
  | 0, .evaluate _ _ r, ctr =>
      (.evaluate (.error "Maximum call stack size exceeded") r, ctr)
  | fuel + 1, req, ctr =>
      let mk : MkFn := fun formula data options c =>
        match engineF g fuel (.mk formula data options) c with
        | (.roll res, c') => (res, c')
        | (_, c') => (.error "unexpected engine response", c')
      let ev : EvalFn := fun mn mx r c =>
        match engineF g fuel (.evaluate mn mx r) c with
        | (.evaluate res r', c') => ((res, r'), c')
        | (_, c') => ((.error "unexpected engine response", r), c')
      let validate : String → ℕ → Bool × ℕ := fun formula c =>
        match engineF g fuel (.validate formula) c with
        | (.bool b, c') => (b, c')
        | (_, c') => (false, c')
      let parensFn : String → ℕ → Except String (List PTerm) × ℕ :=
        fun formula c =>
          match engineF g fuel (.parens formula) c with
          | (.pterms res, c') => (res, c')
          | (_, c') => (.error "unexpected engine response", c')
      let poolsFn : String → ℕ → Except String (List PTerm) × ℕ :=
        fun formula c =>
          match engineF g fuel (.pools formula) c with
          | (.pterms res, c') => (res, c')
          | (_, c') => (.error "unexpected engine response", c')
      let parse : String → Data → ℕ → Except String (List Term) × ℕ :=
        fun formula data c =>
          match engineF g fuel (.parse formula data) c with
          | (.terms res, c') => (res, c')
          | (_, c') => (.error "unexpected engine response", c')
      let evt : Bool → Bool → Term → ℕ → Except String Term × ℕ :=
        fun mn mx t c =>
          match engineF g fuel (.evalTerm mn mx t) c with
          | (.term res, c') => (res, c')
          | (_, c') => (.error "unexpected engine response", c')
      match req with
      | .validate formula => ((.bool (validateGo mk ev formula ctr).1,
          (validateGo mk ev formula ctr).2))
      | .parens formula =>
          let p := splitParenthesesGo
            (parenOnCloseGo (splitMathArgsGo validate)) formula ctr
          (.pterms p.1, p.2)
      | .pools formula =>
          let p := splitPoolsGo (poolOnCloseGo (splitMathArgsGo validate))
            formula ctr
          (.pterms p.1, p.2)
      | .parse formula data =>
          let p := parseGo parensFn poolsFn formula data ctr
          (.terms p.1, p.2)
      | .mk formula data options =>
          let p := RollMkGo parse formula data options ctr
          (.roll p.1, p.2)
      | .evalTerm mn mx t =>
          let p := evalTermGo g mk ev mn mx t ctr
          (.term p.1, p.2)
      | .evaluate mn mx r =>
          let p := evaluateGo (evt mn mx) r ctr
          (.evaluate p.1.1 p.1.2, p.2)

end DC

namespace DC

/-- Roll.validate (roll.js lines 651-667), as an engine entry point. -/
def validateF (g : ℕ → ℕ) (fuel : ℕ) (formula : String) (ctr : ℕ) :
    Bool × ℕ :=
  match engineF g fuel (.validate formula) ctr with
  | (.bool b, c) => (b, c)
  | (_, c) => (false, c)

/-- Roll._splitParentheses (roll.js lines 677-703), as an engine entry
point. -/
def splitParenthesesF (g : ℕ → ℕ) (fuel : ℕ) (formula : String) (ctr : ℕ) :
    Except String (List PTerm) × ℕ :=
  match engineF g fuel (.parens formula) ctr with
  | (.pterms res, c) => (res, c)
  | (_, c) => (.error "unexpected engine response", c)

/-- Roll._splitPools (roll.js lines 737-750), as an engine entry
point. -/
def splitPoolsF (g : ℕ → ℕ) (fuel : ℕ) (formula : String) (ctr : ℕ) :
    Except String (List PTerm) × ℕ :=
  match engineF g fuel (.pools formula) ctr with
  | (.pterms res, c) => (res, c)
  | (_, c) => (.error "unexpected engine response", c)

/-- Roll.parse (roll.js lines 590-616), as an engine entry point. -/
def parseF (g : ℕ → ℕ) (fuel : ℕ) (formula : String) (data : Data)
    (ctr : ℕ) : Except String (List Term) × ℕ :=
  match engineF g fuel (.parse formula data) ctr with
  | (.terms res, c) => (res, c)
  | (_, c) => (.error "unexpected engine response", c)

/-- The DCRoll constructor (roll.js lines 101-146), as an engine entry
point. -/
def RollMkF (g : ℕ → ℕ) (fuel : ℕ) (formula : String) (data : Data)
    (options : RollOpts) (ctr : ℕ) : Except String Roll × ℕ :=
  match engineF g fuel (.mk formula data options) ctr with
  | (.roll res, c) => (res, c)
  | (_, c) => (.error "unexpected engine response", c)

/-- RollTerm evaluation, as an engine entry point. -/
def evalTermF (g : ℕ → ℕ) (fuel : ℕ) (minimize maximize : Bool) (t : Term)
    (ctr : ℕ) : Except String Term × ℕ :=
  match engineF g fuel (.evalTerm minimize maximize t) ctr with
  | (.term res, c) => (res, c)
  | (_, c) => (.error "unexpected engine response", c)

/-- Roll._evaluate (roll.js lines 321-349), as an engine entry point:
the inner evaluation, without the public re-evaluation guard. -/
def evaluateRawF (g : ℕ → ℕ) (fuel : ℕ) (minimize maximize : Bool)
    (r : Roll) (ctr : ℕ) : (Except String Unit × Roll) × ℕ :=
  match engineF g fuel (.evaluate minimize maximize r) ctr with
  | (.evaluate res r', c) => ((res, r'), c)
  | (_, c) => ((.error "unexpected engine response", r), c)

/-- Roll.evaluate (roll.js lines 293-320): the public entry point guards
against re-evaluation before any work happens, then runs Roll._evaluate
through the engine. -/
def evaluateF (g : ℕ → ℕ) (fuel : ℕ) (minimize maximize : Bool) (r : Roll)
    (ctr : ℕ) : (Except String Unit × Roll) × ℕ :=
  if r._evaluated then
    ((.error "The DCRoll has already been evaluated and is now immutable",
      r), ctr)
  else
    match engineF g fuel (.evaluate minimize maximize r) ctr with
    | (.evaluate res r', c) => ((res, r'), c)
    | (_, c) => ((.error "unexpected engine response", r), c)

end DC

namespace DC

/-- One entry of DiceTerm.getTooltipData().rolls (modelled from the
spec, section 6 rendering handoff): the face value and the css class
list of one die. -/
structure TooltipRoll where
  result : Q
  classes : String
deriving DecidableEq, Repr

/-- Modelled from the spec: the tooltip rows of a die term, one per
result, in order. -/
def dieTooltipRolls : Term → List TooltipRoll
  | .die _ f _ rs _ _ => rs.map (fun r =>
      { result := r.result,
        classes := "roll die d" ++ toString f ++
          (if r.success = some true then " success" else "") ++
          (if r.active then "" else " discarded") })
  | _ => []

/-- Replace the result at index `num` of a die term. -/
def updateDieResults (t : Term) (num : ℕ) (v : DieResult) : Term :=
  match t with
  | .die n f m rs o e => .die n f m (rs.set num v) o e
  | t => t

/-- Replace the first die found in a list of dice terms. -/
def updateFirstDieList : List Term → ℕ → DieResult → Option (List Term)
  | [], _, _ => none
  | t :: ts, num, v =>
      match t with
      | .die .. => some (updateDieResults t num v :: ts)
      | _ => (updateFirstDieList ts num v).map (t :: ·)

/-- Replace the first die inside a pool's evaluated inner rolls. -/
def updateRollsFirstDie :
    List (Q × List Term) → ℕ → DieResult → Option (List (Q × List Term))
  | [], _, _ => none
  | (q, ds) :: rest, num, v =>
      match updateFirstDieList ds num v with
      | some ds' => some ((q, ds') :: rest)
      | none => (updateRollsFirstDie rest num v).map ((q, ds) :: ·)

/-- Replace, inside the term list, the die that the Roll.dice getter
lists first (a plain die term, or the first die of an evaluated
pool). -/
def updateFirstDieTerms : List Term → ℕ → DieResult → List Term
  | [], _, _ => []
  | t :: ts, num, v =>
      match t with
      | .die .. => updateDieResults t num v :: ts
      | .pool ps ms rs (some rolls) o =>
          (match updateRollsFirstDie rolls num v with
            | some rolls' => Term.pool ps ms rs (some rolls') o :: ts
            | none => t :: updateFirstDieTerms ts num v)
      | _ => t :: updateFirstDieTerms ts num v

/-- The in-place mutation `this.dice[0].results[num] = ...` of
Roll.editRoll: the getter's first die lives in `_dice` when that list is
non-empty, otherwise it is the first die among the terms. -/
def Roll.setFirstDieResult (r : Roll) (num : ℕ) (v : DieResult) : Roll :=
  match r._dice with
  | d :: ds => { r with _dice := updateDieResults d num v :: ds }
  | [] => { r with terms := updateFirstDieTerms r.terms num v }

/-- Roll.editRoll (roll.js lines 1201-1211): capture the replaced die's
rendered row into options.DCOld (mergeObject: an existing DCOld survives),
overwrite the selected result of the first die with the fresh roll's
first result, and add 1 to the cached total when the fresh die is a
success.  The discarded die's own contribution is never subtracted. -/
def Roll.editRoll (r : Roll) (num : ℕ) (value : Term) : Except String Roll :=
  match (r.dice).head? with
  | none => .error "this.dice[0] is undefined"
  | some d0 =>
      match (dieTooltipRolls d0).get? num with
      | none => .error "getTooltipData().rolls[num] is undefined"
      | some template =>
          let old := "<li class=\"roll " ++ template.classes ++ "\">" ++
            numToString template.result ++ "</li>"
          let options' : RollOpts :=
            { r.options with DCOld := match r.options.DCOld with
                | some x => some x
                | none => some old }
          match value with
          | .die _ _ _ (v0 :: _) _ _ =>
              let r' := r.setFirstDieResult num v0
              .ok { r' with
                      options := options',
                      _total := if v0.success = some true then
                          r'._total.map (fun t => t.add 1)
                        else r'._total }
          | _ => .error "value.results[0] is undefined"

/-- One die entry of the chat-message roll flags used by the flag-based
relance sheet (item-sheet.mjs lines 250-255). -/
structure FlagDie where
  result : Q
  active : Bool
deriving DecidableEq, Repr

/-- The roll flags of a chat message: the success count and the per-die
breakdown. -/
structure RollFlags where
  results : ℤ
  dices : List FlagDie
deriving DecidableEq, Repr

/-- The flag update of the flag-based relance listener (item-sheet.mjs
lines 246-259): add the fresh die's success contribution, mark the
selected die inactive, push the fresh die as active, then subtract the
discarded die's success contribution. -/
def relanceFlagReroll (flags : RollFlags) (selected : ℕ) (rTotal : Q)
    (difficulte : Q) : Option RollFlags :=
  match flags.dices.get? selected with
  | none => none
  | some old =>
      let res1 := if Q.ble rTotal difficulte then flags.results + 1
        else flags.results
      let dices1 := (flags.dices.set selected { old with active := false }) ++
        [⟨rTotal, true⟩]
      let res2 := if Q.ble old.result difficulte then res1 - 1 else res1
      some { results := res2, dices := dices1 }

/-- The early-return guard of the flag-based relance click handler
(item-sheet.mjs line 236): nothing proceeds without a selection or when
the original chat message no longer exists. -/
def relanceFlagGuard (selected : Option ℕ) (msgExists : Bool) : Bool :=
  match selected with
  | none => false
  | some _ => msgExists

/-- The click flow of the roll-based relance handler (relance-sheet.mjs
lines 55-90).  The `selected === null` guard never fires: an unset
selection is `undefined`, not `null`, so whatever the selection state
the handler proceeds to `game.messages.get(msg).delete()`; a second
click after the chat message was deleted dereferences undefined and
throws. -/
def relanceClickV1 (selected : Option ℕ) (msgExists : Bool) :
    Except String Bool :=
  if msgExists then .ok true
  else .error "Cannot read properties of undefined (reading delete)"

end DC

namespace DC

/-- The serialized shape of one term (RollTerm.toJSON, modelled from the
spec, section 6: each term has its own serializable shape).  Operator
symbols are stored as text; the transient inner-roll state of grouping
terms is host data and is not serialized by this model. -/
inductive TermData where
  | num (number : Q) (opts : TermOpts) (evaluated : Bool)
  | op (operator : String) (opts : TermOpts) (evaluated : Bool)
  | die (number : ℕ) (faces : ℕ) (modifiers : List String)
        (results : List DieResult) (opts : TermOpts) (evaluated : Bool)
  | paren (term : String) (opts : TermOpts)
  | math (fn : String) (argStrs : List String) (opts : TermOpts)
  | pool (termStrs : List String) (modifiers : List String)
         (results : List DieResult) (opts : TermOpts)
  | str (term : String) (opts : TermOpts)

/-- RollTerm.toJSON (modelled from the spec). -/
def Term.toData : Term → TermData
  | .num n o e => .num n o e
  | .op p o e => .op p.symbol o e
  | .die n f m rs o e => .die n f m rs o e
  | .paren t _ o => .paren t o
  | .math fn args _ o => .math fn args o
  | .pool ts ms rs _ o => .pool ts ms rs o
  | .str s o => .str s o

/-- RollTerm.fromData (modelled from the spec): rebuild each term from
its serialized shape; an unknown operator symbol cannot be rebuilt. -/
def TermData.toTerm : TermData → Except String Term
  | .num n o e => .ok (.num n o e)
  | .op s o e =>
      match oprOfString s with
      | some p => .ok (.op p o e)
      | none => .error ("Unable to recreate operator " ++ s)
  | .die n f m rs o e => .ok (.die n f m rs o e)
  | .paren t o => .ok (.paren t none o)
  | .math fn args o => .ok (.math fn args none o)
  | .pool ts ms rs o => .ok (.pool ts ms rs none o)
  | .str s o => .ok (.str s o)

/-- A term with no transient inner-roll state (every term of an
evaluated roll's term and dice lists is of this shape). -/
def Term.isFlat : Term → Bool
  | .paren _ inner _ => inner.isNone
  | .math _ _ inner _ => inner.isNone
  | .pool _ _ _ inner _ => inner.isNone
  | _ => true

/-- The structured serialization of a Roll (Roll.toJSON, roll.js lines
1104-1114): class name, options, inner dice, cleaned formula, terms,
total and evaluated flag.  The substitution data is not serialized. -/
structure RollData where
  cls : String
  options : RollOpts
  dice : List TermData
  formula : String
  terms : List TermData
  total : Option Q
  evaluated : Bool

/-- Roll.toJSON (roll.js lines 1104-1114). -/
def Roll.toJSON (r : Roll) : RollData :=
  { cls := "DCRoll", options := r.options,
    dice := r._dice.map Term.toData, formula := r._formula,
    terms := r.terms.map Term.toData, total := r._total,
    evaluated := r._evaluated }

/-- Roll.fromData (roll.js lines 1123-1150): rebuild a roll through the
constructor on the stored formula (the stored data object is not part of
the serialization, so the constructor parses with an empty context),
replace its terms by the deserialized ones, and, when the stored roll was
evaluated, restore the total, the inner dice and the evaluated flag
without rolling anything. -/
def DCRoll.fromData (g : ℕ → ℕ) (fuel : ℕ) (data : RollData) (ctr : ℕ) :
    Except String Roll × ℕ :=
  if data.cls ≠ "DCRoll" then
    (.error ("Unable to recreate " ++ data.cls ++
      " instance from provided data"), ctr)
  else
    match RollMkF g fuel data.formula [] data.options ctr with
    | (.error e, c) => (.error e, c)
    | (.ok roll, c) =>
        match data.terms.mapM TermData.toTerm with
        | .error e => (.error e, c)
        | .ok terms =>
            let roll1 := { roll with terms := terms }
            if data.evaluated then
              match data.dice.mapM TermData.toTerm with
              | .error e => (.error e, c)
              | .ok dice =>
                  (.ok { roll1 with _total := data.total, _dice := dice,
                                    _evaluated := true }, c)
            else (.ok roll1, c)

end DC

namespace DC

/-! Concrete example material shared by several checks: the random
source `gEx` makes a 3d6 roll come up 2, 5, 6 and a subsequent 1d6 come
up 3. -/

def gEx : ℕ → ℕ := fun n => [1, 4, 5, 2].getD n 0

def rsEx : List DieResult :=
  [{ result := 2, active := true, success := some true, count := some 1 },
   { result := 5, active := true, success := some false, count := some 0 },
   { result := 6, active := true, success := some false, count := some 0 }]

/-- The die of `3D6cs<=4` as evaluated under `gEx`. -/
def dieEvalEx : Term := .die 3 6 ["cs<=4"] rsEx ⟨none⟩ true

/-- An unevaluated `3d6cs<=4` roll. -/
def rollUnEx : Roll :=
  { data := [], options := {}, terms := [.die 3 6 ["cs<=4"] [] ⟨none⟩ false],
    _dice := [], _formula := "3d6cs<=4", _evaluated := false,
    _total := none }

/-- The same roll after evaluation under `gEx`: faces 2, 5, 6 against
difficulty 4 give one success. -/
def rollEvalEx : Roll :=
  { data := [], options := {}, terms := [dieEvalEx], _dice := [],
    _formula := "3d6cs<=4", _evaluated := true, _total := some 1 }

/-- A freshly rolled replacement die that failed (face 6 against
difficulty 4). -/
def newFailDieEx : Term :=
  .die 1 6 ["cs<=4"]
    [{ result := 6, active := true, success := some false, count := some 0 }]
    ⟨none⟩ true

/-- A freshly rolled replacement die that succeeded (face 2 against
difficulty 4). -/
def newSuccDieEx : Term :=
  .die 1 6 ["cs<=4"]
    [{ result := 2, active := true, success := some true, count := some 1 }]
    ⟨none⟩ true

/-- A `1 / 0` roll before evaluation. -/
def rollDivEx : Roll :=
  { data := [], options := {},
    terms := [.num 1 ⟨none⟩ false, .op .div ⟨none⟩ false,
      .num 0 ⟨none⟩ false],
    _dice := [], _formula := "1 / 0", _evaluated := false, _total := none }

/-- The substitution context of spec scenario D. -/
def ctxEx : Data := [("qualites", .obj [("costaud", .leaf "4")])]

end DC

namespace DC

/-- An unevaluated `1 + 2 * 3` roll. -/
def rollAddMulEx : Roll :=
  { data := [], options := {},
    terms := [.num 1 ⟨none⟩ false, .op .add ⟨none⟩ false, .num 2 ⟨none⟩ false,
      .op .mul ⟨none⟩ false, .num 3 ⟨none⟩ false],
    _dice := [], _formula := "1 + 2 * 3", _evaluated := false, _total := none }

/-- The same roll once evaluated: 1 + 2 * 3 = 7 under standard
precedence. -/
def rollAddMulEvalEx : Roll :=
  { data := [], options := {},
    terms := [.num 1 ⟨none⟩ true, .op .add ⟨none⟩ true, .num 2 ⟨none⟩ true,
      .op .mul ⟨none⟩ true, .num 3 ⟨none⟩ true],
    _dice := [], _formula := "1 + 2 * 3", _evaluated := true,
    _total := some 7 }

/-- The rendered row of the discarded die (face 2, a success) that
editRoll stores into options.DCOld. -/
def oldMarkupEx : String :=
  "<li class=\"roll roll die d6 success\">2</li>"

/-- rollEvalEx after editRoll replaced result 0 by the failed fresh die:
the success at face 2 is simply overwritten by the inactive-free failure
row, and the total is NOT reduced. -/
def rollFailEditedEx : Roll :=
  { data := [], options := { flavor := none, DCOld := some oldMarkupEx },
    terms := [.die 3 6 ["cs<=4"]
      [{ result := 6, active := true, success := some false, count := some 0 },
       { result := 5, active := true, success := some false, count := some 0 },
       { result := 6, active := true, success := some false, count := some 0 }]
      ⟨none⟩ true],
    _dice := [], _formula := "3d6cs<=4", _evaluated := true,
    _total := some 1 }

/-- rollEvalEx after editRoll replaced result 0 by the successful fresh
die: the total is bumped to 2. -/
def rollSuccEditedEx : Roll :=
  { data := [], options := { flavor := none, DCOld := some oldMarkupEx },
    terms := [dieEvalEx], _dice := [], _formula := "3d6cs<=4",
    _evaluated := true, _total := some 2 }

/-- rollSuccEditedEx after a SECOND editRoll with the same successful
fresh die: the total is bumped again, to 3. -/
def rollSucc2Ex : Roll :=
  { data := [], options := { flavor := none, DCOld := some oldMarkupEx },
    terms := [dieEvalEx], _dice := [], _formula := "3d6cs<=4",
    _evaluated := true, _total := some 3 }

/-- Chat-message flags of the same 3d6 vs 4 outcome (faces 2, 5, 6; one
success) for the flag-based relance variant. -/
def flagsEx : RollFlags :=
  { results := 1, dices := [⟨2, true⟩, ⟨5, true⟩, ⟨6, true⟩] }

/-- flagsEx after the flag-based reroll of die 0 with a fresh face 6
(a failure against difficulty 4): the old success is subtracted and the
discarded die is kept inactive. -/
def flagsFailEx : RollFlags :=
  { results := 0,
    dices := [⟨2, false⟩, ⟨5, true⟩, ⟨6, true⟩, ⟨6, true⟩] }

/-- A roll holding a lone unresolvable string fragment. -/
def rollStrEx : Roll :=
  { data := [], options := {}, terms := [.str "abc" ⟨none⟩],
    _dice := [], _formula := "abc", _evaluated := false, _total := none }

/-- The `1 / 0` roll after its failed evaluation: evaluated, but with no
total. -/
def rollDivEvalEx : Roll :=
  { data := [], options := {},
    terms := [.num 1 ⟨none⟩ true, .op .div ⟨none⟩ true,
      .num 0 ⟨none⟩ true],
    _dice := [], _formula := "1 / 0", _evaluated := true, _total := none }

end DC

namespace DC

/-- The roll that deserialization reconstructs from an evaluated roll
`r` when the constructor re-parse produced `r0`: the parsed skeleton
with the stored terms, dice, total and evaluated flag restored. -/
def restoredRoll (r0 r : Roll) : Roll :=
  { r0 with terms := r.terms, _dice := r._dice, _total := r._total,
            _evaluated := true }

end DC

namespace DC

/-- Is this term a DiceTerm proper? -/
def isDieTerm : Term → Bool
  | .die .. => true
  | _ => false

/-- The dice contributed by one term to the Roll.dice getter: the term
itself for a die, the inner dice for a pool, nothing otherwise - the
fold body of roll.js lines 191-197, term by term. -/
def groupDice : List Term → List Term
  | [] => []
  | t :: ts =>
      (match t with
        | .die .. => [t]
        | .pool .. => t.dice
        | _ => []) ++ groupDice ts

/-- The flattened dice of a pool's evaluated inner rolls (the reduce of
PoolTerm dice collection). -/
def poolFlat : List (Q × List Term) → List Term
  | [] => []
  | p :: ps => p.2 ++ poolFlat ps

/-- A second, independent 2d6 dice group (faces 3 and 4, no
modifiers). -/
def dieBEx : Term :=
  .die 2 6 []
    [{ result := 3, active := true, success := none, count := none },
     { result := 4, active := true, success := none, count := none }]
    ⟨none⟩ true

/-- An evaluated roll holding TWO dice groups: the 3d6cs<=4 die and the
2d6 die, joined by +. -/
def rollTwoEx : Roll :=
  { data := [], options := {},
    terms := [dieEvalEx, .op .add ⟨none⟩ true, dieBEx],
    _dice := [], _formula := "3d6cs<=4 + 2d6", _evaluated := true,
    _total := some 8 }

/-- rollTwoEx after editRoll replaced result 1 of the FIRST group by
the successful fresh die: result 1 of group 0 is overwritten, the
second group is untouched, the replaced row (face 5) is stored in
DCOld and the total is bumped to 9. -/
def rollTwoEditedEx : Roll :=
  { data := [],
    options := { flavor := none,
                 DCOld := some "<li class=\"roll roll die d6\">5</li>" },
    terms := [.die 3 6 ["cs<=4"]
      [{ result := 2, active := true, success := some true, count := some 1 },
       { result := 2, active := true, success := some true, count := some 1 },
       { result := 6, active := true, success := some false, count := some 0 }]
      ⟨none⟩ true,
      .op .add ⟨none⟩ true, dieBEx],
    _dice := [], _formula := "3d6cs<=4 + 2d6", _evaluated := true,
    _total := some 9 }

end DC

namespace DC

/-! ## Verified properties of the embedded engine -/

/-- The splitGroupLoop fails exactly when the depth scan ends on a
nonzero count (an open symbol never matched by its close). -/
theorem splitGroupLoop_isFail (openSym closeSym : Char)
    (onClose : GroupAcc → ℕ → List PTerm × ℕ) :
    ∀ parts acc nOpen group flavors ctr,
      isFail (splitGroupLoop openSym closeSym onClose
          parts acc nOpen group flavors ctr).1 = true ↔
        scanOpenCount openSym closeSym parts nOpen ≠ 0 := by
  intro parts
  induction parts with
  | nil =>
      intro acc nOpen group flavors ctr
      simp only [splitGroupLoop, scanOpenCount]
      split
      · simp [isFail]
        assumption
      · simp [isFail]
        omega
  | cons t0 ps ih =>
      intro acc nOpen group flavors ctr
      simp only [splitGroupLoop, scanOpenCount]
      repeat' split
      all_goals first
        | exact ih _ _ _ _ _
        | simp_all
        | (exfalso; simp_all)

theorem mulPass_length :
    ∀ l v w r, mulPass v l = some (w, r) → r.length ≤ l.length := by
  intro l
  induction l with
  | nil => intro v w r h; simp [mulPass] at h; simp [h]
  | cons p rest ih =>
      intro v w r h
      match p with
      | (.mul, q) =>
          simp only [mulPass] at h
          have := ih _ _ _ h
          simp only [List.length_cons]
          omega
      | (.div, q) =>
          simp only [mulPass] at h
          split at h
          · simp at h
          · have := ih _ _ _ h
            simp only [List.length_cons]
            omega
      | (.add, q) => simp only [mulPass] at h; cases h; simp
      | (.sub, q) => simp only [mulPass] at h; cases h; simp

theorem flatTail_length : ∀ l, (flatTail l).length = 2 * l.length := by
  intro l
  induction l with
  | nil => simp [flatTail]
  | cons p r ih =>
      match p with
      | (o, w) => simp [flatTail, ih]; omega

theorem mulChain_flat :
    ∀ rest fuel v, rest.length < fuel →
      mulChainF fuel v (flatTail rest) =
        (mulPass v rest).map (fun p => (p.1, flatTail p.2)) := by
  intro rest
  induction rest with
  | nil =>
      intro fuel v hf
      match fuel with
      | f + 1 => simp [flatTail, mulChainF, mulPass]
  | cons p r ih =>
      intro fuel v hf
      match fuel, p with
      | f + 1, (.mul, w) =>
          simp only [flatTail, mulChainF, parseAtom, mulPass]
          exact ih f (v.mul w) (by simp at hf; omega)
      | f + 1, (.div, w) =>
          simp only [flatTail, mulChainF, parseAtom, mulPass]
          split
          · rfl
          · exact ih f (v.div w) (by simp at hf; omega)
      | f + 1, (.add, w) => simp [flatTail, mulChainF, mulPass]
      | f + 1, (.sub, w) => simp [flatTail, mulChainF, mulPass]

theorem parseProd_flat :
    ∀ rest fuel v0, rest.length < fuel →
      parseProd fuel (flatToks v0 rest) =
        (mulPass v0 rest).map (fun p => (p.1, flatTail p.2)) := by
  intro rest fuel v0 hf
  unfold parseProd flatToks
  simp only [parseAtom]
  exact mulChain_flat rest fuel v0 hf

theorem addChain_flat :
    ∀ n rest fuel fuel2 v, rest.length ≤ n →
      rest.length < fuel → rest.length < fuel2 →
      addChainF fuel v (flatTail rest) = addPassF fuel2 v rest := by
  intro n
  induction n with
  | zero =>
      intro rest fuel fuel2 v hn hf hf2
      have : rest = [] := List.length_eq_zero.mp (by omega)
      subst this
      match fuel, fuel2 with
      | f + 1, f2 + 1 => simp [flatTail, addChainF, addPassF]
  | succ n ih =>
      intro rest fuel fuel2 v hn hf hf2
      match rest, fuel, fuel2 with
      | [], f + 1, f2 + 1 => simp [flatTail, addChainF, addPassF]
      | (.add, w) :: r, f + 1, f2 + 1 =>
          simp only [flatTail, addChainF, addPassF]
          rw [show (Tok.num w :: flatTail r) = flatToks w r from rfl]
          rw [parseProd_flat r f w (by simp at hf; omega)]
          cases hm : mulPass w r with
          | none => simp
          | some q =>
              obtain ⟨w1, r1⟩ := q
              simp only [Option.map_some]
              have hlen := mulPass_length _ _ _ _ hm
              simp only [List.length_cons] at hn hf hf2
              exact ih r1 f f2 (v.add w1) (by omega) (by omega) (by omega)
      | (.sub, w) :: r, f + 1, f2 + 1 =>
          simp only [flatTail, addChainF, addPassF]
          rw [show (Tok.num w :: flatTail r) = flatToks w r from rfl]
          rw [parseProd_flat r f w (by simp at hf; omega)]
          cases hm : mulPass w r with
          | none => simp
          | some q =>
              obtain ⟨w1, r1⟩ := q
              simp only [Option.map_some]
              have hlen := mulPass_length _ _ _ _ hm
              simp only [List.length_cons] at hn hf hf2
              exact ih r1 f f2 (v.sub w1) (by omega) (by omega) (by omega)
      | (.mul, w) :: r, f + 1, f2 + 1 => simp [flatTail, addChainF, addPassF]
      | (.div, w) :: r, f + 1, f2 + 1 => simp [flatTail, addChainF, addPassF]

/-- On a well-formed operand/operator alternation, the engine-side
evaluator agrees with the two-pass standard-precedence evaluator. -/
theorem safeEval_flat :
    ∀ v0 rest, DCRoll.safeEval (flatToks v0 rest) = twoPassEval v0 rest := by
  intro v0 rest
  unfold DCRoll.safeEval twoPassEval
  have hlen : (flatToks v0 rest).length = 1 + 2 * rest.length := by
    simp only [flatToks, List.length_cons, flatTail_length]
    omega
  rw [hlen]
  rw [parseProd_flat rest (1 + 2 * rest.length + 1) v0 (by omega)]
  cases hm : mulPass v0 rest with
  | none => simp
  | some p =>
      simp only [Option.map_some]
      have hlen2 := mulPass_length _ _ _ _ hm
      exact addChain_flat p.2.length p.2 (1 + 2 * rest.length + 1)
        (p.2.length + 1) p.1 le_rfl (by omega) (by omega)

theorem TermData.toTerm_toData (t : Term) (h : t.isFlat = true) :
    t.toData.toTerm = .ok t := by
  cases t with
  | op p o e =>
      cases p <;>
        simp [Term.toData, TermData.toTerm, oprOfString, Opr.symbol,
          Opr.ofChar]
  | paren s inner o =>
      simp [Term.isFlat, Option.isNone_iff_eq_none] at h
      subst h
      simp [Term.toData, TermData.toTerm]
  | math fn args inner o =>
      simp [Term.isFlat, Option.isNone_iff_eq_none] at h
      subst h
      simp [Term.toData, TermData.toTerm]
  | pool ts ms rs inner o =>
      simp [Term.isFlat, Option.isNone_iff_eq_none] at h
      subst h
      simp [Term.toData, TermData.toTerm]
  | num n o e => simp [Term.toData, TermData.toTerm]
  | die n f m rs o e => simp [Term.toData, TermData.toTerm]
  | str s o => simp [Term.toData, TermData.toTerm]

end DC

namespace DC

/-- Unfolding the engine one step on an evalTerm request: the body is
evalTermGo over the one-step-less engine entry points. -/
theorem engineF_evalTerm_eq (g : ℕ → ℕ) (fuel : ℕ) (mn mx : Bool)
    (t : Term) (ctr : ℕ) :
    engineF g (fuel + 1) (.evalTerm mn mx t) ctr =
      (.term (evalTermGo g (RollMkF g fuel) (evaluateRawF g fuel)
        mn mx t ctr).1,
       (evalTermGo g (RollMkF g fuel) (evaluateRawF g fuel) mn mx t ctr).2) :=
  rfl

/-- Unfolding the engine one step on an evaluate request: the body is
evaluateGo over the one-step-less term evaluator. -/
theorem engineF_evaluate_eq (g : ℕ → ℕ) (fuel : ℕ) (mn mx : Bool)
    (r : Roll) (ctr : ℕ) :
    engineF g (fuel + 1) (.evaluate mn mx r) ctr =
      (.evaluate (evaluateGo (evalTermF g fuel mn mx) r ctr).1.1
        (evaluateGo (evalTermF g fuel mn mx) r ctr).1.2,
       (evaluateGo (evalTermF g fuel mn mx) r ctr).2) :=
  rfl

/-- The public evaluate is the guard plus the inner evaluation. -/
theorem evaluateF_eq_raw (g : ℕ → ℕ) (fuel : ℕ) (mn mx : Bool)
    (r : Roll) (ctr : ℕ) :
    evaluateF g fuel mn mx r ctr =
      if r._evaluated then
        ((.error "The DCRoll has already been evaluated and is now immutable",
          r), ctr)
      else evaluateRawF g fuel mn mx r ctr :=
  rfl

end DC

namespace DC

/-- A successful inner evaluation caches exactly the total that the
final term list evaluates to. -/
theorem evaluateGo_ok_total (evt : Term → ℕ → Except String Term × ℕ)
    (r : Roll) (ctr : ℕ) (r' : Roll) (c : ℕ)
    (h : evaluateGo evt r ctr = ((.ok (), r'), c)) :
    ∃ t, r'._total = some t ∧ DCRoll.evaluateTotal r'.terms = .ok t ∧
      r'._evaluated = true := by
  unfold evaluateGo at h
  split at h
  · simp at h
  · dsimp only at h
    split at h
    · simp at h
    · split at h
      · simp at h
      · split at h
        · simp at h
        next tot htot =>
          simp only [Prod.mk.injEq] at h
          obtain ⟨⟨-, h2⟩, -⟩ := h
          subst h2
          exact ⟨tot, rfl, by simpa using htot, rfl⟩

/-- A failed inner evaluation never installs a total. -/
theorem evaluateGo_err_total (evt : Term → ℕ → Except String Term × ℕ)
    (r : Roll) (ctr : ℕ) (e : String) (r' : Roll) (c : ℕ)
    (h0 : r._total = none)
    (h : evaluateGo evt r ctr = ((.error e, r'), c)) :
    r'._total = none := by
  unfold evaluateGo at h
  split at h
  · simp only [Prod.mk.injEq] at h
    obtain ⟨⟨-, h2⟩, -⟩ := h
    subst h2
    exact h0
  · dsimp only at h
    split at h
    · simp only [Prod.mk.injEq] at h
      obtain ⟨⟨-, h2⟩, -⟩ := h
      subst h2
      exact h0
    · split at h
      · simp only [Prod.mk.injEq] at h
        obtain ⟨⟨-, h2⟩, -⟩ := h
        subst h2
        exact h0
      · split at h
        · simp only [Prod.mk.injEq] at h
          obtain ⟨⟨-, h2⟩, -⟩ := h
          subst h2
          exact h0
        · simp at h

end DC

namespace DC

/-- A term reporting itself evaluated is never a string fragment. -/
theorem isEvaluated_not_str (t : Term) (h : t.isEvaluated = true) :
    t.isStr = false := by
  cases t <;> simp_all [Term.isEvaluated, Term.isStr]

/-- Term evaluation never produces a string fragment, whatever the
recursive entry points do. -/
theorem evalTermGo_ok_not_str (g : ℕ → ℕ) (mk : MkFn) (ev : EvalFn)
    (mn mx : Bool) (t : Term) (ctr : ℕ) (t' : Term) (c' : ℕ)
    (h : evalTermGo g mk ev mn mx t ctr = (.ok t', c')) :
    t'.isStr = false := by
  cases t <;> simp only [evalTermGo] at h <;>
    repeat' split at h
  all_goals simp_all [Term.isStr]
  all_goals (cases h.1; simp [Term.isStr])

/-- The engine's term evaluator never produces a string fragment. -/
theorem evalTermF_ok_not_str (g : ℕ → ℕ) (fuel : ℕ) (mn mx : Bool)
    (t : Term) (ctr : ℕ) (t' : Term) (c' : ℕ)
    (h : evalTermF g fuel mn mx t ctr = (.ok t', c')) :
    t'.isStr = false := by
  match fuel with
  | 0 => simp [evalTermF, engineF] at h
  | fuel + 1 =>
      rw [evalTermF, engineF_evalTerm_eq] at h
      simp only [Prod.mk.injEq] at h
      exact evalTermGo_ok_not_str g _ _ mn mx t ctr t' c'
        (by rw [Prod.ext_iff]; exact ⟨h.1, h.2⟩)

/-- A successful step-3 walk leaves no string fragment in the term
list, provided the term evaluator never produces one. -/
theorem step3Go_no_str (evt : Term → ℕ → Except String Term × ℕ)
    (hpres : ∀ t c t' c', evt t c = (.ok t', c') → t'.isStr = false) :
    ∀ l ctr u ts c, step3Go evt l ctr = (.ok u, ts, c) →
      ∀ t ∈ ts, t.isStr = false := by
  intro l
  induction l with
  | nil =>
      intro ctr u ts c h t ht
      simp only [step3Go, Prod.mk.injEq] at h
      obtain ⟨-, h2, -⟩ := h
      subst h2
      simp at ht
  | cons term rest ih =>
      intro ctr u ts c h t ht
      simp only [step3Go] at h
      split at h
      · rcases hev : evt term ctr with ⟨res1, c1⟩
        cases res1 with
        | error e => rw [hev] at h; simp at h
        | ok t1 =>
            rw [hev] at h
            dsimp only at h
            rcases hs3 : step3Go evt rest c1 with ⟨res2, ts2, c2⟩
            rw [hs3] at h
            simp only [Prod.mk.injEq] at h
            obtain ⟨h1, h2, -⟩ := h
            subst h1 h2
            rcases List.mem_cons.mp ht with h3 | h3
            · subst h3
              exact hpres term ctr t c1 hev
            · exact ih c1 u ts2 c2 hs3 t h3
      · rcases hs3 : step3Go evt rest ctr with ⟨res2, ts2, c2⟩
        rw [hs3] at h
        simp only [Prod.mk.injEq] at h
        obtain ⟨h1, h2, -⟩ := h
        subst h1 h2
        rcases List.mem_cons.mp ht with h3 | h3
        · subst h3
          refine isEvaluated_not_str t ?_
          simp_all
        · exact ih ctr u ts2 c2 hs3 t h3

end DC

namespace DC

/-- A successful inner evaluation leaves no string fragment among the
final terms, provided the term evaluator never produces one. -/
theorem evaluateGo_ok_no_str (evt : Term → ℕ → Except String Term × ℕ)
    (hpres : ∀ t c t' c', evt t c = (.ok t', c') → t'.isStr = false)
    (r : Roll) (ctr : ℕ) (r' : Roll) (c : ℕ)
    (h : evaluateGo evt r ctr = ((.ok (), r'), c)) :
    ∀ t ∈ r'.terms, t.isStr = false := by
  unfold evaluateGo at h
  split at h
  · simp at h
  · dsimp only at h
    split at h
    · simp at h
    next ts dice c1 hs1 =>
      split at h
      · simp at h
      next u ts' c2 hs3 =>
        split at h
        · simp at h
        next tot htot =>
          simp only [Prod.mk.injEq] at h
          obtain ⟨⟨-, h2⟩, -⟩ := h
          subst h2
          intro t ht
          exact step3Go_no_str evt hpres _ _ u ts' c2 (by simpa using hs3)
            t ht

end DC

namespace DC

/-- C2: evaluating an already-evaluated Roll fails with the immutability
error and returns the Roll completely unchanged (same total, terms and
dice), with the random counter untouched. -/
theorem claimC2 (g : ℕ → ℕ) (fuel : ℕ) (mn mx : Bool) (r : Roll)
    (ctr : ℕ) (h : r._evaluated = true) :
    evaluateF g fuel mn mx r ctr =
      ((.error "The DCRoll has already been evaluated and is now immutable",
        r), ctr) := by
  rw [evaluateF_eq_raw, if_pos h]

theorem claimC2_witness :
    rollEvalEx._evaluated = true ∧
    evaluateF gEx 5 false false rollEvalEx 0 =
      ((.error "The DCRoll has already been evaluated and is now immutable",
        rollEvalEx), 0) :=
  ⟨rfl, claimC2 gEx 5 false false rollEvalEx 0 rfl⟩

/-- C7: a successfully evaluated Roll has no string fragment left among
its final terms (an unresolved fragment makes the evaluation fail
instead). -/
theorem claimC7 (g : ℕ → ℕ) (fuel : ℕ) (mn mx : Bool) (r : Roll)
    (ctr : ℕ) (r' : Roll) (c : ℕ)
    (h : evaluateF g fuel mn mx r ctr = ((.ok (), r'), c)) :
    ∀ t ∈ r'.terms, t.isStr = false := by
  rw [evaluateF_eq_raw] at h
  split at h
  · simp at h
  · match fuel with
    | 0 => unfold evaluateRawF engineF at h; simp at h
    | fuel + 1 =>
        unfold evaluateRawF at h
        rw [engineF_evaluate_eq] at h
        rcases hgo : evaluateGo (evalTermF g fuel mn mx) r ctr
          with ⟨⟨res, rr⟩, cc⟩
        rw [hgo] at h
        simp only [Prod.mk.injEq] at h
        obtain ⟨⟨h1, h2⟩, -⟩ := h
        subst h1 h2
        exact evaluateGo_ok_no_str (evalTermF g fuel mn mx)
          (fun t c t' c' => evalTermF_ok_not_str g fuel mn mx t c t' c')
          r ctr rr cc hgo

theorem claimC7_witness : dieEvalEx.isStr = false :=
  claimC7 gEx 20 false false rollUnEx 0 rollEvalEx 3 (by rfl) dieEvalEx
    (by simp [rollEvalEx])

theorem claimC7_cex :
    Term.isStr (.str "abc" ⟨none⟩) = true ∧
    DCRoll.simplifyTerms [.str "abc" ⟨none⟩] = [.str "abc" ⟨none⟩] ∧
    (evaluateF gEx 20 false false rollStrEx 0).1.1 =
      .error "The string abc cannot be evaluated" :=
  ⟨rfl, rfl, rfl⟩

/-- C1: a successful evaluation caches as total exactly the arithmetic
evaluation of the final term list (each non-operator term contributing
its reported total - for dice the modifier-adjusted total); and on
operand/operator alternations the engine's JS-grammar evaluation agrees
with standard two-pass operator precedence (* and / before + and -,
left-to-right within a level). -/
theorem claimC1 (g : ℕ → ℕ) (fuel : ℕ) (mn mx : Bool) (r : Roll)
    (ctr : ℕ) (r' : Roll) (c : ℕ)
    (h : evaluateF g fuel mn mx r ctr = ((.ok (), r'), c)) :
    (∃ t, r'._total = some t ∧ DCRoll.evaluateTotal r'.terms = .ok t) ∧
    (∀ v0 rest, DCRoll.safeEval (flatToks v0 rest) = twoPassEval v0 rest) := by
  constructor
  · rw [evaluateF_eq_raw] at h
    split at h
    · simp at h
    · match fuel with
      | 0 => unfold evaluateRawF engineF at h; simp at h
      | fuel + 1 =>
          unfold evaluateRawF at h
          rw [engineF_evaluate_eq] at h
          rcases hgo : evaluateGo (evalTermF g fuel mn mx) r ctr
            with ⟨⟨res, rr⟩, cc⟩
          rw [hgo] at h
          simp only [Prod.mk.injEq] at h
          obtain ⟨⟨h1, h2⟩, -⟩ := h
          subst h1 h2
          obtain ⟨t, ht1, ht2, -⟩ :=
            evaluateGo_ok_total (evalTermF g fuel mn mx) r ctr rr cc hgo
          exact ⟨t, ht1, ht2⟩
  · exact fun v0 rest => safeEval_flat v0 rest

theorem claimC1_witness :
    (∃ t, rollAddMulEvalEx._total = some t ∧
      DCRoll.evaluateTotal rollAddMulEvalEx.terms = .ok t) ∧
    (∀ v0 rest, DCRoll.safeEval (flatToks v0 rest) = twoPassEval v0 rest) :=
  claimC1 gEx 10 false false rollAddMulEx 0 rollAddMulEvalEx 0 (by rfl)

theorem claimC1_cex :
    evaluateF gEx 20 false false rollUnEx 0 = ((.ok (), rollEvalEx), 3) ∧
    rollEvalEx.terms = [dieEvalEx] ∧
    dieEvalEx.dieResults.map DieResult.result = [2, 5, 6] ∧
    rollEvalEx._total = some 1 ∧
    ¬ rollEvalEx._total =
        some ((dieEvalEx.dieResults.map DieResult.result).foldl Q.add 0) :=
  ⟨by rfl, rfl, rfl, rfl, by decide⟩

/-- C6: starting from a Roll with no cached total, a successful
evaluation installs a (finite rational) total, and a failed evaluation
- in particular a division by zero detected by the safety check -
leaves the total absent. -/
theorem claimC6 (g : ℕ → ℕ) (fuel : ℕ) (mn mx : Bool) (r : Roll)
    (ctr : ℕ) (res : Except String Unit) (r' : Roll) (c : ℕ)
    (h0 : r._total = none)
    (h : evaluateF g fuel mn mx r ctr = ((res, r'), c)) :
    (res = .ok () → r'._evaluated = true ∧ ∃ t, r'._total = some t) ∧
    (∀ e, res = .error e → r'._total = none) := by
  rw [evaluateF_eq_raw] at h
  split at h
  · simp only [Prod.mk.injEq] at h
    obtain ⟨⟨h1, h2⟩, -⟩ := h
    subst h1 h2
    exact ⟨fun hc => by simp at hc, fun e _ => h0⟩
  · match fuel with
    | 0 =>
        unfold evaluateRawF engineF at h
        simp only [Prod.mk.injEq] at h
        obtain ⟨⟨h1, h2⟩, -⟩ := h
        subst h1 h2
        exact ⟨fun hc => by simp at hc, fun e _ => h0⟩
    | fuel + 1 =>
        unfold evaluateRawF at h
        rw [engineF_evaluate_eq] at h
        rcases hgo : evaluateGo (evalTermF g fuel mn mx) r ctr
          with ⟨⟨res1, rr⟩, cc⟩
        rw [hgo] at h
        simp only [Prod.mk.injEq] at h
        obtain ⟨⟨h1, h2⟩, -⟩ := h
        subst h1 h2
        constructor
        · intro hc
          subst hc
          obtain ⟨t, ht1, -, ht3⟩ :=
            evaluateGo_ok_total (evalTermF g fuel mn mx) r ctr rr cc hgo
          exact ⟨ht3, t, ht1⟩
        · intro e he
          subst he
          exact evaluateGo_err_total (evalTermF g fuel mn mx) r ctr e rr cc
            h0 hgo

theorem claimC6_witness :
    rollDivEx._total = none ∧ rollDivEvalEx._total = none :=
  ⟨rfl,
    (claimC6 gEx 20 false false rollDivEx 0
      (.error "Roll.safeEval produced a non-numeric result")
      rollDivEvalEx 0 rfl (by rfl)).2
      "Roll.safeEval produced a non-numeric result" rfl⟩

end DC

namespace DC

/-- Overwriting a die result never touches the cached total. -/
theorem setFirstDieResult_total (r : Roll) (num : ℕ) (v : DieResult) :
    (r.setFirstDieResult num v)._total = r._total := by
  unfold Roll.setFirstDieResult
  split <;> rfl

/-- C3: the two reroll implementations.  The Roll-based editRoll bumps
the cached total by 1 exactly when the fresh die succeeded and never
subtracts the discarded die's contribution; the flag-based variant both
adds the fresh die's contribution and subtracts the discarded one's,
keeping the discarded die inactive. -/
theorem claimC3 :
    (∀ (r : Roll) (num : ℕ) (value : Term) (r' : Roll),
      r.editRoll num value = .ok r' →
      ∃ v0 rest, value.dieResults = v0 :: rest ∧
        r'._total = (if v0.success = some true then
          r._total.map (fun t => t.add 1) else r._total)) ∧
    (∀ (flags : RollFlags) (selected : ℕ) (rTotal difficulte : Q)
        (old : FlagDie) (flags' : RollFlags),
      flags.dices.get? selected = some old →
      relanceFlagReroll flags selected rTotal difficulte = some flags' →
      flags'.results = flags.results +
          (if Q.ble rTotal difficulte then 1 else 0) -
          (if Q.ble old.result difficulte then 1 else 0) ∧
      flags'.dices =
        flags.dices.set selected { old with active := false } ++
          [⟨rTotal, true⟩]) := by
  constructor
  · intro r num value r' h
    unfold Roll.editRoll at h
    split at h
    · simp at h
    · split at h
      · simp at h
      · cases value with
        | die n f m rs o e =>
            cases rs with
            | nil => simp at h
            | cons v0 rest =>
                dsimp only at h
                injection h with h2
                subst h2
                refine ⟨v0, rest, rfl, ?_⟩
                simp [setFirstDieResult_total]
        | num a o e => simp at h
        | op p o e => simp at h
        | paren t i o => simp at h
        | math fn a i o => simp at h
        | pool ts ms rs i o => simp at h
        | str s o => simp at h
  · intro flags selected rTotal difficulte old flags' h1 h2
    unfold relanceFlagReroll at h2
    rw [h1] at h2
    simp only [Option.some.injEq] at h2
    subst h2
    constructor
    · simp only []
      split <;> split <;> omega
    · rfl

theorem claimC3_witness :
    (∃ v0 rest, newSuccDieEx.dieResults = v0 :: rest ∧
      rollSuccEditedEx._total = (if v0.success = some true then
        rollEvalEx._total.map (fun t => t.add 1) else rollEvalEx._total)) ∧
    (flagsFailEx.results = flagsEx.results +
        (if Q.ble 6 4 then 1 else 0) -
        (if Q.ble (2 : Q) 4 then 1 else 0) ∧
      flagsFailEx.dices =
        flagsEx.dices.set 0 { result := 2, active := false } ++
          [⟨6, true⟩]) :=
  ⟨claimC3.1 rollEvalEx 0 newSuccDieEx rollSuccEditedEx (by rfl),
   claimC3.2 flagsEx 0 6 4 ⟨2, true⟩ flagsFailEx (by rfl) (by rfl)⟩

theorem claimC3_cex :
    rollEvalEx.editRoll 0 newFailDieEx = .ok rollFailEditedEx ∧
    rollEvalEx._total = some 1 ∧
    rollFailEditedEx._total = some 1 ∧
    ¬ rollFailEditedEx._total = some 0 ∧
    rollFailEditedEx.terms.map Term.dieResults =
      [[⟨6, true, some false, some 0⟩, ⟨5, true, some false, some 0⟩,
        ⟨6, true, some false, some 0⟩]] :=
  ⟨by rfl, rfl, rfl, by decide, by rfl⟩

/-- C4: no engine-level amended-state guard exists; the only
protections are in the click handlers - the flag-based variant's guard
refuses when the original chat message is gone, and the roll-based
variant's second click throws on the deleted message. -/
theorem claimC4 :
    (∀ selected : Option ℕ, relanceFlagGuard selected false = false) ∧
    (∀ n : ℕ, relanceClickV1 (some n) false =
      .error "Cannot read properties of undefined (reading delete)") := by
  constructor
  · intro s
    cases s <;> rfl
  · intro n
    rfl

theorem claimC4_cex :
    rollEvalEx.editRoll 0 newSuccDieEx = .ok rollSuccEditedEx ∧
    rollSuccEditedEx.editRoll 0 newSuccDieEx = .ok rollSucc2Ex ∧
    rollSuccEditedEx._total = some 2 ∧
    rollSucc2Ex._total = some 3 ∧
    ¬ rollSucc2Ex._total = rollSuccEditedEx._total :=
  ⟨by rfl, by rfl, rfl, rfl, by decide⟩

/-- C5: the group splitters fail exactly when the part scan ends with a
positive nesting count - an open symbol without its matching close; a
stray close symbol alone never makes the split fail. -/
theorem claimC5 :
    ∀ (onCloseP onCloseB : GroupAcc → ℕ → List PTerm × ℕ)
      (formula : String) (ctr ctr2 : ℕ),
    (isFail (splitParenthesesGo onCloseP formula ctr).1 = true ↔
      scanOpenCount '(' ')'
        (parenParts (DCRoll.extractFlavors formula).1) 0 ≠ 0) ∧
    (isFail (splitPoolsGo onCloseB formula ctr2).1 = true ↔
      scanOpenCount '{' '}'
        (poolParts (DCRoll.extractFlavors formula).1) 0 ≠ 0) := by
  intro onCloseP onCloseB formula ctr ctr2
  constructor
  · have key := splitGroupLoop_isFail '(' ')' onCloseP
      (parenParts (DCRoll.extractFlavors formula).1) [] 0
      ⟨"", [], "", none⟩ (DCRoll.extractFlavors formula).2 ctr
    simp only [splitParenthesesGo]
    rcases hsg : splitGroupLoop '(' ')' onCloseP
        (parenParts (DCRoll.extractFlavors formula).1) [] 0
        ⟨"", [], "", none⟩ (DCRoll.extractFlavors formula).2 ctr
      with ⟨res, c⟩
    rw [hsg] at key
    cases res with
    | error e => simpa [isFail] using key
    | ok acc => simpa [isFail] using key
  · have key := splitGroupLoop_isFail '{' '}' onCloseB
      (poolParts (DCRoll.extractFlavors formula).1) [] 0
      ⟨"", [], "", none⟩ (DCRoll.extractFlavors formula).2 ctr2
    simp only [splitPoolsGo]
    rcases hsg : splitGroupLoop '{' '}' onCloseB
        (poolParts (DCRoll.extractFlavors formula).1) [] 0
        ⟨"", [], "", none⟩ (DCRoll.extractFlavors formula).2 ctr2
      with ⟨res, c⟩
    rw [hsg] at key
    cases res with
    | error e => simpa [isFail] using key
    | ok acc => simpa [isFail] using key

theorem claimC5_cex :
    isFail (parseF gEx 30 "2+1)D6" [] 0).1 = false ∧
    (parseF gEx 30 "(2+1D6" [] 0).1 =
      .error "Unbalanced group missing opening ( or closing )" ∧
    (parseF gEx 30 "max(1D6,2)+(" [] 0) =
      (.error "Unbalanced group missing opening ( or closing )", 1) :=
  ⟨by rfl, by rfl, by rfl⟩

end DC

namespace DC

/-- A run of characters all satisfying the predicate, followed by text
not starting with one, is exactly what takeWhile extracts. -/
theorem takeWhile_run (p : Char → Bool) :
    ∀ (ident rest : List Char), (∀ c ∈ ident, p c = true) →
      (∀ c, rest.head? = some c → p c = false) →
      (ident ++ rest).takeWhile p = ident := by
  intro ident
  induction ident with
  | nil =>
      intro rest h1 h2
      cases rest with
      | nil => rfl
      | cons c cs => simp [List.takeWhile, h2 c rfl]
  | cons c cs ih =>
      intro rest h1 h2
      simp only [List.cons_append, List.takeWhile]
      rw [h1 c (by simp)]
      simp [ih rest (fun d hd => h1 d (by simp [hd])) h2]

/-- C8: data substitution.  Text without an @-sign passes through
unchanged; each maximal @identifier occurrence is replaced by its
substitution text and scanning continues right after it; the
substitution text is the stringified looked-up value when the dotted
path exists, the configured default when it is missing, and the literal
match text when no default is configured.  Scenario D follows. -/
theorem claimC8 :
    (∀ (data : Data) (missing : Option String) (pre rest : List Char),
      (∀ c ∈ pre, ¬ c = '@') →
      replaceDataCharsF data missing (pre.length + rest.length)
          (pre ++ rest) =
        pre ++ replaceDataCharsF data missing rest.length rest) ∧
    (∀ (data : Data) (missing : Option String) (ident rest : List Char)
        (fuel : ℕ),
      ¬ ident = [] → (∀ c ∈ ident, isRefChar c = true) →
      (∀ c, rest.head? = some c → isRefChar c = false) →
      replaceDataCharsF data missing (fuel + 1) ('@' :: (ident ++ rest)) =
        substRef data missing ident ++
          replaceDataCharsF data missing fuel rest) ∧
    (∀ (data : Data) (missing : Option String) (ident : List Char)
        (v : DataVal),
      getProperty data (String.mk ident) = some v →
      substRef data missing ident = (strTrim (stringifyVal v)).data) ∧
    (∀ (data : Data) (m : String) (ident : List Char),
      getProperty data (String.mk ident) = none →
      substRef data (some m) ident = m.data) ∧
    (∀ (data : Data) (ident : List Char),
      getProperty data (String.mk ident) = none →
      substRef data none ident = '@' :: ident) ∧
    DCRoll.replaceFormulaData "@qualites.costaud D6" ctxEx (some "0") =
      "4 D6" := by
  refine ⟨?_, ?_, ?_, ?_, ?_, by rfl⟩
  · intro data missing pre
    induction pre with
    | nil => intro rest h; simp
    | cons c cs ih =>
        intro rest h
        have hlen : (c :: cs).length + rest.length =
            (cs.length + rest.length) + 1 := by
          simp only [List.length_cons]
          omega
        rw [hlen]
        simp only [List.cons_append, replaceDataCharsF]
        rw [if_neg (by simpa using h c (by simp))]
        simp only [List.append_eq]
        rw [ih rest (fun d hd => h d (by simp [hd]))]
  · intro data missing ident rest fuel hne hall hstop
    simp only [replaceDataCharsF, eq_self_iff_true, ite_true]
    rw [takeWhile_run isRefChar ident rest hall hstop]
    rw [if_neg (by simp only [List.isEmpty_iff]; exact hne)]
    rw [List.drop_left]
  · intro data missing ident v h
    unfold substRef
    rw [h]
  · intro data m ident h
    unfold substRef
    rw [h]
  · intro data ident h
    unfold substRef
    rw [h]

theorem claimC8_witness :
    (replaceDataCharsF ctxEx (some "0") (['4', ' '].length + ['@', 'x'].length)
        (['4', ' '] ++ ['@', 'x']) =
      ['4', ' '] ++ replaceDataCharsF ctxEx (some "0") ['@', 'x'].length
        ['@', 'x']) ∧
    (replaceDataCharsF ctxEx (some "0") (3 + 1)
        ('@' :: ("qualites.costaud".data ++ [' ', 'D'])) =
      substRef ctxEx (some "0") "qualites.costaud".data ++
        replaceDataCharsF ctxEx (some "0") 3 [' ', 'D']) ∧
    (substRef ctxEx (some "0") "qualites.costaud".data =
      (strTrim (stringifyVal (.leaf "4"))).data) ∧
    (substRef ctxEx (some "0") "zz".data = "0".data) ∧
    (substRef ctxEx none "zz".data = '@' :: "zz".data) :=
  ⟨claimC8.1 ctxEx (some "0") ['4', ' '] ['@', 'x'] (by decide),
   claimC8.2.1 ctxEx (some "0") "qualites.costaud".data [' ', 'D'] 3
     (by decide) (by decide) (by decide),
   claimC8.2.2.1 ctxEx (some "0") "qualites.costaud".data (.leaf "4")
     (by rfl),
   claimC8.2.2.2.1 ctxEx "0" "zz".data (by rfl),
   claimC8.2.2.2.2.1 ctxEx "zz".data (by rfl)⟩

end DC

namespace DC

/-- Serialization inverse on flat term lists. -/
theorem mapM_toTerm_of_flat :
    ∀ (l : List Term), (∀ t ∈ l, t.isFlat = true) →
      (l.map Term.toData).mapM TermData.toTerm = .ok l := by
  intro l
  induction l with
  | nil => intro h; rfl
  | cons t ts ih =>
      intro h
      simp only [List.map_cons, List.mapM_cons,
        TermData.toTerm_toData t (h t (by simp)),
        ih (fun u hu => h u (by simp [hu]))]
      rfl

/-- C9: deserializing the serialization of an evaluated Roll whose
stored formula re-parses (to a roll `r0` rendering the same cleaned
formula) reconstructs the same total, formula, terms and per-die
breakdown, with no dice rolled beyond what the re-parse itself does. -/
theorem claimC9 (g : ℕ → ℕ) (fuel : ℕ) (r : Roll) (ctr : ℕ)
    (r0 : Roll) (c0 : ℕ)
    (h1 : r._evaluated = true)
    (h2 : ∀ t ∈ r.terms, t.isFlat = true)
    (h3 : ∀ t ∈ r._dice, t.isFlat = true)
    (h4 : RollMkF g fuel r._formula [] r.options ctr = (.ok r0, c0))
    (h5 : r0._formula = r._formula) :
    DCRoll.fromData g fuel (r.toJSON) ctr = (.ok (restoredRoll r0 r), c0) ∧
    (restoredRoll r0 r)._total = r._total ∧
    (restoredRoll r0 r)._formula = r._formula ∧
    (restoredRoll r0 r).dice = r.dice := by
  refine ⟨?_, rfl, h5, ?_⟩
  · unfold DCRoll.fromData
    simp only [Roll.toJSON]
    rw [if_neg (by simp)]
    rw [h4]
    rw [mapM_toTerm_of_flat r.terms h2]
    dsimp only
    rw [if_pos h1]
    rw [mapM_toTerm_of_flat r._dice h3]
    rfl
  · unfold Roll.dice
    rfl

theorem claimC9_witness :
    DCRoll.fromData gEx 30 (Roll.toJSON rollEvalEx) 0 =
      (.ok (restoredRoll rollUnEx rollEvalEx), 0) ∧
    (restoredRoll rollUnEx rollEvalEx)._total = rollEvalEx._total ∧
    (restoredRoll rollUnEx rollEvalEx)._formula = rollEvalEx._formula ∧
    (restoredRoll rollUnEx rollEvalEx).dice = rollEvalEx.dice :=
  claimC9 gEx 30 rollEvalEx 0 rollUnEx 0 rfl
    (by intro t ht
        simp only [rollEvalEx] at ht
        simp only [List.mem_singleton] at ht
        subst ht
        rfl)
    (by intro t ht
        simp [rollEvalEx] at ht)
    (by rfl) rfl

end DC

namespace DC

/-- Setting one list position leaves every other position unchanged. -/
theorem get?_set_ne {α : Type} :
    ∀ (l : List α) (i : ℕ) (a : α) (j : ℕ), ¬ j = i →
      (l.set i a).get? j = l.get? j := by
  intro l
  induction l with
  | nil => intro i a j hj; simp
  | cons x xs ih =>
      intro i a j hj
      cases i with
      | zero =>
          cases j with
          | zero => exact absurd rfl hj
          | succ k => rfl
      | succ i' =>
          cases j with
          | zero => rfl
          | succ k => exact ih i' a k (by omega)

/-- The non-list fields that setFirstDieResult preserves. -/
theorem setFirstDieResult_fields (r : Roll) (num : ℕ) (v : DieResult) :
    (r.setFirstDieResult num v).data = r.data ∧
    (r.setFirstDieResult num v)._formula = r._formula ∧
    (r.setFirstDieResult num v)._evaluated = r._evaluated ∧
    (r.setFirstDieResult num v).options = r.options := by
  unfold Roll.setFirstDieResult
  split <;> exact ⟨rfl, rfl, rfl, rfl⟩

end DC

namespace DC

/-- Setting a list position within bounds stores the value there. -/
theorem get?_set_self {α : Type} :
    ∀ (l : List α) (i : ℕ) (a : α), i < l.length →
      (l.set i a).get? i = some a := by
  intro l
  induction l with
  | nil => intro i a h; simp at h
  | cons x xs ih =>
      intro i a h
      cases i with
      | zero => rfl
      | succ k => exact ih k a (by simpa using h)

/-- The dice-collecting fold of the Roll.dice getter, normalized. -/
theorem dice_foldl :
    ∀ (ts : List Term) (acc : List Term),
      ts.foldl (fun dice t =>
        match t with
        | .die .. => dice ++ [t]
        | .pool .. => dice ++ t.dice
        | _ => dice) acc = acc ++ groupDice ts := by
  intro ts
  induction ts with
  | nil => intro acc; simp [groupDice]
  | cons t ts ih =>
      intro acc
      rw [List.foldl_cons, ih]
      cases t <;> simp [groupDice, List.append_assoc]

/-- The Roll.dice getter is the inner dice followed by the per-term
group dice. -/
theorem Roll.dice_eq (r : Roll) :
    r.dice = r._dice ++ groupDice r.terms := by
  unfold Roll.dice
  rw [dice_foldl, List.nil_append]

/-- The pool-dice fold, normalized. -/
theorem poolFlat_foldl :
    ∀ (rolls : List (Q × List Term)) (acc : List Term),
      rolls.foldl (fun acc r => acc ++ r.2) acc = acc ++ poolFlat rolls := by
  intro rolls
  induction rolls with
  | nil => intro acc; simp [poolFlat]
  | cons p ps ih =>
      intro acc
      rw [List.foldl_cons, ih]
      simp [poolFlat, List.append_assoc]

/-- An evaluated pool's dice are the flatten of its inner rolls. -/
theorem poolDice_eq (ps ms : List String) (rs : List DieResult)
    (rolls : List (Q × List Term)) (o : TermOpts) :
    Term.dice (.pool ps ms rs (some rolls) o) = poolFlat rolls := by
  simp only [Term.dice]
  rw [poolFlat_foldl, List.nil_append]

/-- A die at the head of a dice list is the one the first-die update
replaces. -/
theorem updateFirstDieList_head_die (d0 : Term) (tl : List Term)
    (num : ℕ) (v : DieResult) (h : isDieTerm d0 = true) :
    updateFirstDieList (d0 :: tl) num v =
      some (updateDieResults d0 num v :: tl) := by
  cases d0 <;> simp_all [isDieTerm, updateFirstDieList]

/-- A pool with no inner dice has no first die to update. -/
theorem updateRollsFirstDie_flat_nil :
    ∀ (rolls : List (Q × List Term)) (num : ℕ) (v : DieResult),
      poolFlat rolls = [] → updateRollsFirstDie rolls num v = none := by
  intro rolls
  induction rolls with
  | nil => intro num v _; rfl
  | cons p ps ih =>
      intro num v h
      obtain ⟨q, ds⟩ := p
      simp only [poolFlat, List.append_eq_nil] at h
      obtain ⟨h1, h2⟩ := h
      subst h1
      simp [updateRollsFirstDie, updateFirstDieList, ih num v h2]

end DC

namespace DC

/-- When a pool's flattened dice start with a die term, the first-die
update replaces exactly that head, keeping every later die verbatim. -/
theorem updateRollsFirstDie_flat :
    ∀ (rolls : List (Q × List Term)) (num : ℕ) (v : DieResult)
      (d0 : Term) (gs : List Term),
      poolFlat rolls = d0 :: gs → isDieTerm d0 = true →
      ∃ rolls', updateRollsFirstDie rolls num v = some rolls' ∧
        poolFlat rolls' = updateDieResults d0 num v :: gs := by
  intro rolls
  induction rolls with
  | nil => intro num v d0 gs h _; simp [poolFlat] at h
  | cons p ps ih =>
      intro num v d0 gs h hd
      obtain ⟨q, ds⟩ := p
      cases ds with
      | nil =>
          simp only [poolFlat, List.nil_append] at h
          obtain ⟨rolls', h1, h2⟩ := ih num v d0 gs h hd
          refine ⟨(q, []) :: rolls', ?_, ?_⟩
          · simp [updateRollsFirstDie, updateFirstDieList, h1]
          · simp [poolFlat, h2]
      | cons e tl =>
          simp only [poolFlat, List.cons_append, List.cons.injEq] at h
          obtain ⟨h1, h2⟩ := h
          subst h1
          refine ⟨(q, updateDieResults e num v :: tl) :: ps, ?_, ?_⟩
          · simp [updateRollsFirstDie,
              updateFirstDieList_head_die e tl num v hd]
          · simp only [poolFlat, List.cons_append, List.cons.injEq]
            exact ⟨trivial, h2⟩

/-- When the term list's group dice start with a die term, replacing the
first die replaces exactly that head group entry, keeping every later
group entry verbatim. -/
theorem groupDice_update :
    ∀ (ts : List Term) (num : ℕ) (v : DieResult) (d0 : Term)
      (gs : List Term),
      groupDice ts = d0 :: gs → isDieTerm d0 = true →
      groupDice (updateFirstDieTerms ts num v) =
        updateDieResults d0 num v :: gs := by
  intro ts
  induction ts with
  | nil => intro num v d0 gs h _; simp [groupDice] at h
  | cons t ts' ih =>
      intro num v d0 gs h hd
      cases t with
      | die n f m rs o e =>
          simp only [groupDice, List.singleton_append, List.cons.injEq] at h
          obtain ⟨h1, h2⟩ := h
          subst h1 h2
          simp [updateFirstDieTerms, groupDice, updateDieResults]
      | pool ps2 ms2 rs2 inner o =>
          cases inner with
          | some rolls =>
              simp only [groupDice] at h
              rw [poolDice_eq] at h
              cases hpf : poolFlat rolls with
              | nil =>
                  rw [hpf, List.nil_append] at h
                  have hnone := updateRollsFirstDie_flat_nil rolls num v hpf
                  simp only [updateFirstDieTerms, hnone, groupDice]
                  rw [poolDice_eq, hpf, List.nil_append]
                  exact ih num v d0 gs h hd
              | cons e es =>
                  rw [hpf, List.cons_append] at h
                  injection h with h1 h2
                  subst h1
                  obtain ⟨rolls', hu, hpf'⟩ :=
                    updateRollsFirstDie_flat rolls num v e es hpf hd
                  simp only [updateFirstDieTerms, hu, groupDice]
                  rw [poolDice_eq, hpf', List.cons_append, h2]
          | none =>
              simp only [groupDice, Term.dice, List.nil_append] at h
              simp only [updateFirstDieTerms, groupDice, Term.dice,
                List.nil_append]
              exact ih num v d0 gs h hd
      | num a o e =>
          simp only [groupDice, List.nil_append] at h
          simp only [updateFirstDieTerms, groupDice, List.nil_append]
          exact ih num v d0 gs h hd
      | op p o e =>
          simp only [groupDice, List.nil_append] at h
          simp only [updateFirstDieTerms, groupDice, List.nil_append]
          exact ih num v d0 gs h hd
      | paren t' i' o =>
          simp only [groupDice, List.nil_append] at h
          simp only [updateFirstDieTerms, groupDice, List.nil_append]
          exact ih num v d0 gs h hd
      | math fn a i' o =>
          simp only [groupDice, List.nil_append] at h
          simp only [updateFirstDieTerms, groupDice, List.nil_append]
          exact ih num v d0 gs h hd
      | str st o =>
          simp only [groupDice, List.nil_append] at h
          simp only [updateFirstDieTerms, groupDice, List.nil_append]
          exact ih num v d0 gs h hd

end DC

namespace DC

/-- Replacing the first die leaves every term that carries no dice
exactly where and as it was. -/
theorem updateFirstDieTerms_keeps :
    ∀ (ts : List Term) (num : ℕ) (v : DieResult) (j : ℕ) (t : Term),
      ts.get? j = some t → Term.dice t = [] →
      (updateFirstDieTerms ts num v).get? j = some t := by
  intro ts
  induction ts with
  | nil => intro num v j t h _; simp at h
  | cons t0 ts' ih =>
      intro num v j t h hd
      cases t0 with
      | die n f m rs o e =>
          cases j with
          | zero =>
              simp only [List.get?] at h
              injection h with h1
              subst h1
              simp [Term.dice] at hd
          | succ k =>
              simp only [updateFirstDieTerms]
              simpa using h
      | pool ps2 ms2 rs2 inner o =>
          cases inner with
          | some rolls =>
              cases hu : updateRollsFirstDie rolls num v with
              | some rolls' =>
                  cases j with
                  | zero =>
                      simp only [List.get?] at h
                      injection h with h1
                      subst h1
                      rw [poolDice_eq] at hd
                      have := updateRollsFirstDie_flat_nil rolls num v hd
                      rw [hu] at this
                      simp at this
                  | succ k =>
                      simp only [updateFirstDieTerms, hu]
                      simpa using h
              | none =>
                  cases j with
                  | zero =>
                      simp only [updateFirstDieTerms, hu]
                      simpa using h
                  | succ k =>
                      simp only [updateFirstDieTerms, hu]
                      exact ih num v k t (by simpa using h) hd
          | none =>
              cases j with
              | zero =>
                  simp only [updateFirstDieTerms]
                  simpa using h
              | succ k =>
                  simp only [updateFirstDieTerms]
                  exact ih num v k t (by simpa using h) hd
      | num a o e =>
          cases j with
          | zero => simp only [updateFirstDieTerms]; simpa using h
          | succ k =>
              simp only [updateFirstDieTerms]
              exact ih num v k t (by simpa using h) hd
      | op p o e =>
          cases j with
          | zero => simp only [updateFirstDieTerms]; simpa using h
          | succ k =>
              simp only [updateFirstDieTerms]
              exact ih num v k t (by simpa using h) hd
      | paren t' i' o =>
          cases j with
          | zero => simp only [updateFirstDieTerms]; simpa using h
          | succ k =>
              simp only [updateFirstDieTerms]
              exact ih num v k t (by simpa using h) hd
      | math fn a i' o =>
          cases j with
          | zero => simp only [updateFirstDieTerms]; simpa using h
          | succ k =>
              simp only [updateFirstDieTerms]
              exact ih num v k t (by simpa using h) hd
      | str st o =>
          cases j with
          | zero => simp only [updateFirstDieTerms]; simpa using h
          | succ k =>
              simp only [updateFirstDieTerms]
              exact ih num v k t (by simpa using h) hd

/-- A tooltip row exists at index num only for a die term with at least
num+1 results. -/
theorem dieTooltip_shape :
    ∀ (t : Term) (num : ℕ) (tpl : TooltipRoll),
      (dieTooltipRolls t).get? num = some tpl →
      isDieTerm t = true ∧ num < t.dieResults.length := by
  intro t num tpl h
  cases t with
  | die n f m rs o e =>
      refine ⟨rfl, ?_⟩
      simp only [dieTooltipRolls] at h
      by_contra hlt
      rw [List.get?_eq_none.mpr (by simpa using hlt)] at h
      simp at h
  | num a o e => simp [dieTooltipRolls] at h
  | op p o e => simp [dieTooltipRolls] at h
  | paren t' i' o => simp [dieTooltipRolls] at h
  | math fn a i' o => simp [dieTooltipRolls] at h
  | pool ts ms rs i' o => simp [dieTooltipRolls] at h
  | str st o => simp [dieTooltipRolls] at h

/-- setFirstDieResult through the dice getter: when the getter's first
entry is a die, exactly that entry is replaced (every other group kept
verbatim) and every term without dice is untouched. -/
theorem setFirstDieResult_dice (r : Roll) (num : ℕ) (v0 : DieResult)
    (d0 : Term) (gs : List Term)
    (hrd : r.dice = d0 :: gs) (hdie : isDieTerm d0 = true) :
    (r.setFirstDieResult num v0).dice =
      updateDieResults d0 num v0 :: gs ∧
    (∀ j t, r.terms.get? j = some t → Term.dice t = [] →
      (r.setFirstDieResult num v0).terms.get? j = some t) := by
  rcases hdice : r._dice with _ | ⟨d, ds⟩
  · have hgd : groupDice r.terms = d0 :: gs := by
      rw [Roll.dice_eq, hdice, List.nil_append] at hrd
      exact hrd
    constructor
    · simp only [Roll.setFirstDieResult, hdice]
      rw [Roll.dice_eq]
      simp only []
      rw [List.nil_append]
      exact groupDice_update r.terms num v0 d0 gs hgd hdie
    · intro j t hj ht
      simp only [Roll.setFirstDieResult, hdice]
      exact updateFirstDieTerms_keeps r.terms num v0 j t hj ht
  · have hre : r.dice = d :: (ds ++ groupDice r.terms) := by
      rw [Roll.dice_eq, hdice, List.cons_append]
    rw [hrd] at hre
    injection hre with h1 h2
    subst h1
    constructor
    · simp only [Roll.setFirstDieResult, hdice]
      rw [Roll.dice_eq]
      simp only []
      rw [List.cons_append, h2]
    · intro j t hj _
      simp only [Roll.setFirstDieResult, hdice]
      exact hj

end DC

namespace DC

/-- C10: editRoll is a frame-respecting amendment of the FIRST dice
group.  On success the dice-group list of the returned roll is the
original list with exactly its head entry dice[0] replaced - every
other dice group is kept verbatim, so a die of any other group can
never be amended - and the replacement differs from dice[0] only at
result index num, which now holds the fresh die's first result; every
term carrying no dice keeps its position and value, and the
substitution data, formula, evaluated flag and flavor option are
unchanged (only the total and the DCOld render option move besides). -/
theorem claimC10 :
    ∀ (r : Roll) (num : ℕ) (v : Term) (r' : Roll),
      r.editRoll num v = .ok r' →
      ∃ v0 rest d0 gs,
        v.dieResults = v0 :: rest ∧
        r.dice = d0 :: gs ∧
        r'.dice = updateDieResults d0 num v0 :: gs ∧
        num < d0.dieResults.length ∧
        (updateDieResults d0 num v0).dieResults.get? num = some v0 ∧
        (∀ k, ¬ k = num →
          (updateDieResults d0 num v0).dieResults.get? k =
            d0.dieResults.get? k) ∧
        (∀ j t, r.terms.get? j = some t → Term.dice t = [] →
          r'.terms.get? j = some t) ∧
        r'.data = r.data ∧ r'._formula = r._formula ∧
        r'._evaluated = r._evaluated ∧
        r'.options.flavor = r.options.flavor := by
  intro r num v r' h
  unfold Roll.editRoll at h
  split at h
  · simp at h
  next d0 hhead =>
    split at h
    · simp at h
    next template htpl =>
      cases v with
      | die n f m rs o e =>
          cases rs with
          | nil => simp at h
          | cons v0 rest =>
              dsimp only at h
              injection h with h2
              subst h2
              obtain ⟨hdie, hnum⟩ := dieTooltip_shape d0 num template htpl
              rcases hrd : r.dice with _ | ⟨a, gs⟩
              · rw [hrd] at hhead; simp at hhead
              · rw [hrd] at hhead
                have ha : a = d0 := by simpa using hhead
                subst ha
                obtain ⟨hdg, hkeep⟩ :=
                  setFirstDieResult_dice r num v0 a gs hrd hdie
                obtain ⟨hda, hfo, hev, -⟩ := setFirstDieResult_fields r num v0
                cases a with
                | die n0 f0 m0 rs0 o0 e0 =>
                    refine ⟨v0, rest, .die n0 f0 m0 rs0 o0 e0, gs, rfl, rfl,
                      hdg, hnum, ?_, ?_, hkeep, hda, hfo, hev, rfl⟩
                    · simp only [updateDieResults, Term.dieResults]
                      exact get?_set_self rs0 num v0 (by simpa using hnum)
                    · intro k hk
                      simp only [updateDieResults, Term.dieResults]
                      exact get?_set_ne rs0 num v0 k hk
                | num a2 o2 e2 => simp [isDieTerm] at hdie
                | op p2 o2 e2 => simp [isDieTerm] at hdie
                | paren t2 i2 o2 => simp [isDieTerm] at hdie
                | math f2 a2 i2 o2 => simp [isDieTerm] at hdie
                | pool t2 m2 r2 i2 o2 => simp [isDieTerm] at hdie
                | str s2 o2 => simp [isDieTerm] at hdie
      | num a o e => simp at h
      | op p o e => simp at h
      | paren t i o => simp at h
      | math fn a i o => simp at h
      | pool ts ms rs i o => simp at h
      | str s o => simp at h

theorem claimC10_witness :
    ∃ v0 rest d0 gs,
      newSuccDieEx.dieResults = v0 :: rest ∧
      rollTwoEx.dice = d0 :: gs ∧
      rollTwoEditedEx.dice = updateDieResults d0 1 v0 :: gs ∧
      1 < d0.dieResults.length ∧
      (updateDieResults d0 1 v0).dieResults.get? 1 = some v0 ∧
      (∀ k, ¬ k = 1 →
        (updateDieResults d0 1 v0).dieResults.get? k =
          d0.dieResults.get? k) ∧
      (∀ j t, rollTwoEx.terms.get? j = some t → Term.dice t = [] →
        rollTwoEditedEx.terms.get? j = some t) ∧
      rollTwoEditedEx.data = rollTwoEx.data ∧
      rollTwoEditedEx._formula = rollTwoEx._formula ∧
      rollTwoEditedEx._evaluated = rollTwoEx._evaluated ∧
      rollTwoEditedEx.options.flavor = rollTwoEx.options.flavor :=
  claimC10 rollTwoEx 1 newSuccDieEx rollTwoEditedEx (by rfl)

end DC
